import Mathlib

/-!
Verification of the accrual/settlement engine of the ledger-calculator
repository (`advance_stats.py`, `advance.py`, `cli.py`).

The engine does all money arithmetic with Python `decimal.Decimal` values
under the default context: results of `+`, `-`, `*` are rounded to 28
significant digits with round-half-even; construction from `int` is exact;
comparisons compare exact values.  We embed that arithmetic faithfully
(`PyDec`, `decRound`, `decAdd`, `decSub`, `decMul`), dates as proleptic
Gregorian ordinals with the lenient `strptime`-style parser the code uses,
and the engine state and event processing exactly as written in
`AdvanceStats`.
-/

/-- A Python `Decimal` value: coefficient `m` and exponent `e`,
denoting `m * 10 ^ e`. -/
structure PyDec where
  m : ℤ
  e : ℤ
  deriving Repr, DecidableEq

/-- Number of decimal digits of `n`, with fuel (`numDigitsFuel f n` is the
digit count whenever `n ≤ f`); `numDigits 0 = 0`. -/
def numDigitsFuel : ℕ → ℕ → ℕ
  | 0, _ => 0
  | f + 1, n => if n = 0 then 0 else numDigitsFuel f (n / 10) + 1

/-- Number of decimal digits of `n` (`numDigits 0 = 0`). -/
def numDigits (n : ℕ) : ℕ := numDigitsFuel n n

/-- Round `a` to a multiple of `p` (given as the quotient), half-even,
as Python's default-context ROUND_HALF_EVEN does on coefficients. -/
def rndHalfEven (a p : ℕ) : ℕ :=
  let q := a / p
  let r := a % p
  if p / 2 < r then q + 1
  else if r < p / 2 then q
  else if q % 2 = 0 then q else q + 1

/-- Python decimal context precision (default context: 28 significant digits). -/
@[reducible] def PREC : ℕ := 28

/-- Round an exact result `M * 10 ^ E` to the context precision of 28
significant digits, half-even, as Python's default Decimal context does
after every arithmetic operation. -/
def decRound (M E : ℤ) : PyDec :=
  let n := numDigits M.natAbs
  if n ≤ PREC then ⟨M, E⟩
  else
    let k := n - PREC
    let q := rndHalfEven M.natAbs (10 ^ k)
    let s : ℤ := if M < 0 then -1 else 1
    if q = 10 ^ PREC then ⟨s * (10 : ℤ) ^ (PREC - 1), E + k + 1⟩
    else ⟨s * (q : ℤ), E + k⟩

/-- The exact rational value of a `PyDec`. -/
def val (a : PyDec) : ℚ := (a.m : ℚ) * (10 : ℚ) ^ a.e

/-- Aligned coefficient of `a` at exponent `E ≤ a.e`. -/
def alignM (a : PyDec) (E : ℤ) : ℤ := a.m * 10 ^ (a.e - E).toNat

/-- Python `Decimal.__add__`: exact sum at the smaller exponent, then
context rounding. -/
def decAdd (a b : PyDec) : PyDec :=
  let E := min a.e b.e
  decRound (alignM a E + alignM b E) E

/-- Python `Decimal.__sub__`: exact difference, then context rounding. -/
def decSub (a b : PyDec) : PyDec := decAdd a ⟨-b.m, b.e⟩

/-- Python `Decimal.__mul__`: exact product of coefficients, exponents
added, then context rounding. -/
def decMul (a b : PyDec) : PyDec := decRound (a.m * b.m) (a.e + b.e)

/-- Exact embedding of a Python `int` as a `Decimal` (construction from
`int` never rounds). -/
def decOfInt (n : ℤ) : PyDec := ⟨n, 0⟩

/-- Value comparison `a < b` (Python Decimal comparisons compare values). -/
def decLt (a b : PyDec) : Prop :=
  alignM a (min a.e b.e) < alignM b (min a.e b.e)

instance (a b : PyDec) : Decidable (decLt a b) := by
  unfold decLt; infer_instance

/-- Value positivity `a > 0` (equivalent to `0 < val a`, since the sign of
the value is the sign of the coefficient). -/
def decPos (a : PyDec) : Prop := 0 < a.m

instance (a : PyDec) : Decidable (decPos a) := by
  unfold decPos; infer_instance

/-- Value test `a == 0`. -/
def decIsZero (a : PyDec) : Prop := a.m = 0

instance (a : PyDec) : Decidable (decIsZero a) := by
  unfold decIsZero; infer_instance

-- Dates: proleptic Gregorian calendar, as Python `datetime`.

def isLeapYear (y : ℕ) : Bool := (y % 4 == 0 && y % 100 != 0) || y % 400 == 0

def daysInMonth (y m : ℕ) : ℕ :=
  if m = 2 then (if isLeapYear y then 29 else 28)
  else if m = 4 ∨ m = 6 ∨ m = 9 ∨ m = 11 then 30
  else 31

def daysBeforeMonth (y : ℕ) : ℕ → ℕ
  | 0 => 0
  | m + 1 => daysBeforeMonth y m + (if m = 0 then 0 else daysInMonth y m)

/-- Python `date.toordinal`: day 1 is 0001-01-01. -/
def toOrdinal (y m d : ℕ) : ℤ :=
  ((365 * (y - 1) + (y - 1) / 4 + (y - 1) / 400 - (y - 1) / 100
    + daysBeforeMonth y m + d : ℕ) : ℤ)

def digitVal (c : Char) : Option ℕ :=
  if c.isDigit then some (c.toNat - 48) else none

/-- The month pattern of CPython strptime, regex `1[0-2]|0[1-9]|[1-9]`:
two digits when they form 01..12, else a single digit 1..9. -/
def parseMonthPart : List Char → Option (ℕ × List Char)
  | [] => none
  | c1 :: rest1 =>
    match digitVal c1 with
    | none => none
    | some d1 =>
      match rest1 with
      | c2 :: rest2 =>
        match digitVal c2 with
        | some d2 =>
          if d1 = 1 ∧ d2 ≤ 2 then some (10 + d2, rest2)
          else if d1 = 0 ∧ 1 ≤ d2 then some (d2, rest2)
          else if 1 ≤ d1 then some (d1, rest1)
          else none
        | none => if 1 ≤ d1 then some (d1, rest1) else none
      | [] => if 1 ≤ d1 then some (d1, []) else none

/-- The day pattern of CPython strptime, regex `3[01]|[12]\d|0[1-9]|[1-9]`. -/
def parseDayPart : List Char → Option (ℕ × List Char)
  | [] => none
  | c1 :: rest1 =>
    match digitVal c1 with
    | none => none
    | some d1 =>
      match rest1 with
      | c2 :: rest2 =>
        match digitVal c2 with
        | some d2 =>
          if d1 = 3 ∧ d2 ≤ 1 then some (30 + d2, rest2)
          else if d1 = 1 ∨ d1 = 2 then some (10 * d1 + d2, rest2)
          else if d1 = 0 ∧ 1 ≤ d2 then some (d2, rest2)
          else if 1 ≤ d1 then some (d1, rest1)
          else none
        | none => if 1 ≤ d1 then some (d1, rest1) else none
      | [] => if 1 ≤ d1 then some (d1, []) else none

/-- The full `%Y-%m-%d` pattern: exactly four year digits, dash, lenient
month, dash, lenient day, end of string. -/
def parseYMD : List Char → Option (ℕ × ℕ × ℕ)
  | c1 :: c2 :: c3 :: c4 :: '-' :: rest =>
    match digitVal c1, digitVal c2, digitVal c3, digitVal c4 with
    | some d1, some d2, some d3, some d4 =>
      match parseMonthPart rest with
      | some (m, '-' :: rest2) =>
        match parseDayPart rest2 with
        | some (d, []) => some (((d1 * 10 + d2) * 10 + d3) * 10 + d4, m, d)
        | _ => none
      | _ => none
    | _, _, _, _ => none
  | _ => none

/-- Model of `datetime.strptime(s, "%Y-%m-%d")` followed by `.toordinal()`: the
regex match plus the `datetime` constructor's range validation
(`MINYEAR = 1`, day within the month).  Malformed input raises, modelled
as an `error` result. -/
def strptimeYMD (s : String) : Except String ℤ :=
  match parseYMD s.toList with
  | some (y, m, d) =>
    if 1 ≤ y ∧ d ≤ daysInMonth y m then .ok (toOrdinal y m d)
    else .error ("ValueError: invalid date")
  | none => .error ("ValueError: no match")

-- The engine state, translated from `advance.py` and `advance_stats.py`.

/-- Model of the `Advance` dataclass: `id`, `type`, `initial_amount`, `date` (the raw
event date string), `current_amount`, `last_modified_date` (held as a
date ordinal; events are parsed to midnight datetimes). -/
structure Advance where
  id : ℤ
  type : String
  initial_amount : ℤ
  date : String
  current_amount : PyDec
  last_modified_date : ℤ
  deriving Repr, DecidableEq

/-- The mutable state of an `AdvanceStats` instance. -/
structure AdvanceStats where
  overall_advance_balance : PyDec
  overall_interest_payable_balance : PyDec
  overall_interest_paid : PyDec
  overall_payments_for_future : PyDec
  advances : List Advance
  first_not_fully_paid_advance_index : ℕ
  deriving Repr, DecidableEq

/-- Model of `ADVANCE_INTEREST_RATE = Decimal(0.00035)`: constructed from the
binary float `0.00035`, whose exact value is `6456360425798343 * 2 ^ (-64)`
(the IEEE-754 double nearest to 7/20000), hence exactly
`6456360425798343 * 5 ^ 64 * 10 ^ (-64)` as a Decimal. -/
def ADVANCE_INTEREST_RATE : PyDec := ⟨6456360425798343 * 5 ^ 64, -64⟩

/-- Model of `AdvanceStats.__init__`. -/
def initStats : AdvanceStats := ⟨⟨0, 0⟩, ⟨0, 0⟩, ⟨0, 0⟩, ⟨0, 0⟩, [], 0⟩

/-- One iteration of the `get_overall_interest` loop body: skip advances
dated after the end date or with zero amount or zero elapsed days,
otherwise accumulate `amount * Decimal(rate) * days`. -/
def interestStep (end_dt : ℤ) (acc : PyDec) (a : Advance) : PyDec :=
  if end_dt < a.last_modified_date ∨ decIsZero a.current_amount then acc
  else
    let days := end_dt - a.last_modified_date
    if days = 0 then acc
    else decAdd acc (decMul (decMul a.current_amount ADVANCE_INTEREST_RATE) ⟨days, 0⟩)

/-- The `get_overall_interest` loop over `advances[first_not_fully_paid_advance_index:]`,
also returning the advances as the iteration leaves them (the body reads
`last_modified_date` and `current_amount` and assigns nothing). -/
def interestLoop (end_dt : ℤ) (acc : PyDec) : List Advance → PyDec × List Advance
  | [] => (acc, [])
  | a :: rest =>
    let acc' := interestStep end_dt acc a
    let r := interestLoop end_dt acc' rest
    (r.1, a :: r.2)

/-- Model of `AdvanceStats.get_overall_interest`. -/
def get_overall_interest (s : AdvanceStats) (end_dt : ℤ) : PyDec :=
  (interestLoop end_dt ⟨0, 0⟩ (s.advances.drop s.first_not_fully_paid_advance_index)).1

/-- Model of `get_overall_interest` as a call on the engine state: the returned
interest plus the state as the method leaves it. -/
def get_overall_interest_call (s : AdvanceStats) (end_dt : ℤ) : PyDec × AdvanceStats :=
  let r := interestLoop end_dt ⟨0, 0⟩ (s.advances.drop s.first_not_fully_paid_advance_index)
  (r.1, { s with advances :=
    s.advances.take s.first_not_fully_paid_advance_index ++ r.2 })

def setLastModified (d : ℤ) (a : Advance) : Advance := { a with last_modified_date := d }

/-- The `while remaining > 0` loop of `reduce_advances`, on the suffix
starting at `first_not_fully_paid_advance_index`, plus the trailing
`for` loop that resets `last_modified_date` on the advances the `while`
loop never reached.  Returns the updated suffix and the number of
increments of `first_not_fully_paid_advance_index`. -/
def reduceLoop (remaining : PyDec) (event_dt : ℤ) : List Advance → List Advance × ℕ
  | [] => ([], 0)
  | a :: rest =>
    if decPos remaining then
      let remaining_acc := decSub remaining a.current_amount
      if decLt a.current_amount remaining then
        let r := reduceLoop remaining_acc event_dt rest
        ({ a with current_amount := ⟨0, 0⟩, last_modified_date := event_dt } :: r.1,
          r.2 + 1)
      else
        let r := reduceLoop remaining_acc event_dt rest
        let a' := { a with current_amount := decSub a.current_amount remaining,
                           last_modified_date := event_dt }
        (a' :: r.1, r.2)
    else ((a :: rest).map (setLastModified event_dt), 0)

/-- Model of `AdvanceStats.reduce_advances`. -/
def reduce_advances (s : AdvanceStats) (amount : PyDec) (event_dt : ℤ) : AdvanceStats :=
  let r := reduceLoop amount event_dt
    (s.advances.drop s.first_not_fully_paid_advance_index)
  { s with
    advances := s.advances.take s.first_not_fully_paid_advance_index ++ r.1,
    first_not_fully_paid_advance_index := s.first_not_fully_paid_advance_index + r.2 }

/-- Model of `AdvanceStats.process_advance`. -/
def process_advance (s : AdvanceStats) (adv : Advance) : AdvanceStats :=
  if decPos s.overall_payments_for_future then
    if decPos (decSub s.overall_payments_for_future (decOfInt adv.initial_amount)) then
      { s with
        overall_payments_for_future :=
          decSub s.overall_payments_for_future (decOfInt adv.initial_amount),
        overall_advance_balance := ⟨0, 0⟩,
        advances := s.advances ++ [{ adv with current_amount := ⟨0, 0⟩ }] }
    else
      { s with
        overall_advance_balance := decAdd s.overall_advance_balance
          (decSub (decOfInt adv.initial_amount) s.overall_payments_for_future),
        overall_payments_for_future := ⟨0, 0⟩,
        advances := s.advances ++
          [{ adv with current_amount := decSub (decOfInt adv.initial_amount)
                                          s.overall_payments_for_future }] }
  else
    { s with
      overall_advance_balance :=
        decAdd s.overall_advance_balance (decOfInt adv.initial_amount),
      advances := s.advances ++ [{ adv with current_amount := decOfInt adv.initial_amount }] }

/-- Model of `AdvanceStats.process_payment` (`payment[2]` is the amount). -/
def process_payment (s : AdvanceStats) (payment_amount : ℤ) (event_dt : ℤ) : AdvanceStats :=
  let ip := get_overall_interest s event_dt
  let paid :=
    if decLt ip (decOfInt payment_amount) then decAdd s.overall_interest_paid ip
    else decAdd s.overall_interest_paid (decOfInt payment_amount)
  let s1 := { s with overall_interest_payable_balance := ip, overall_interest_paid := paid }
  let amount_after_interest := decSub (decOfInt payment_amount) ip
  if decPos amount_after_interest then
    let s2 := reduce_advances s1 amount_after_interest event_dt
    let amount_after_balance := decSub amount_after_interest s2.overall_advance_balance
    if decPos amount_after_balance then
      { s2 with
        overall_advance_balance := ⟨0, 0⟩,
        overall_payments_for_future :=
          decAdd s2.overall_payments_for_future amount_after_balance }
    else
      { s2 with
        overall_advance_balance :=
          decSub s2.overall_advance_balance amount_after_interest }
  else s1

/-- An event row `(id, type, amount, date)`. -/
structure Event where
  id : ℤ
  type : String
  amount : ℤ
  date : String
  deriving Repr, DecidableEq

/-- Model of `Advance(*(list(event) + [0] + [event_datetime]))`: the `date` field
keeps the raw string, `current_amount` starts at `0`,
`last_modified_date` is the parsed event datetime. -/
def mkAdvanceRecord (e : Event) (event_dt : ℤ) : Advance :=
  ⟨e.id, e.type, e.amount, e.date, ⟨0, 0⟩, event_dt⟩

/-- The routing part of `process_event`, after the date filter: `"advance"`
and `"payment"` are dispatched, any other kind is a no-op. -/
def dispatch_event (s : AdvanceStats) (e : Event) (event_dt : ℤ) : AdvanceStats :=
  if e.type = "advance" then process_advance s (mkAdvanceRecord e event_dt)
  else if e.type = "payment" then process_payment s e.amount event_dt
  else s

/-- Model of `AdvanceStats.process_event`: parse the date (a parse failure
propagates before any state change), drop events dated strictly after
`end_dt`, otherwise route by type. -/
def process_event (s : AdvanceStats) (e : Event) (end_dt : ℤ) : Except String AdvanceStats :=
  match strptimeYMD e.date with
  | .error msg => .error msg
  | .ok event_dt =>
    if end_dt < event_dt then .ok s
    else .ok (dispatch_event s e event_dt)

/-- The event loop of `get_advances_summary`. -/
def process_events (end_dt : ℤ) : AdvanceStats → List Event → Except String AdvanceStats
  | s, [] => .ok s
  | s, e :: rest =>
    match process_event s e end_dt with
    | .error msg => .error msg
    | .ok s' => process_events end_dt s' rest

/-- Model of `AdvanceStats.get_advances_summary`: process all events, then one
final accrual through `end_date` inclusive (`end_datetime + 1 day`),
returning the four aggregates. -/
def get_advances_summary (events : List Event) (end_date : String) :
    Except String (PyDec × PyDec × PyDec × PyDec) :=
  match strptimeYMD end_date with
  | .error msg => .error msg
  | .ok end_dt =>
    match process_events end_dt initStats events with
    | .error msg => .error msg
    | .ok s =>
      let ip := get_overall_interest s (end_dt + 1)
      .ok (s.overall_advance_balance, ip, s.overall_interest_paid,
        s.overall_payments_for_future)

/-- The per-advance well-formedness used by the range invariant:
`0 ≤ current_amount ≤ initial_amount` with the initial amount a
nonnegative integer below the context precision. -/
def AdvOk (a : Advance) : Prop :=
  0 ≤ val a.current_amount ∧ val a.current_amount ≤ (a.initial_amount : ℚ) ∧
    0 ≤ a.initial_amount ∧ a.initial_amount < 10 ^ PREC

-- Named intermediates of `process_payment` (definitionally equal to the
-- `let`-bound values in the translation above).

/-- Model of `amount_after_interest_payed`. -/
def ppAfter (s : AdvanceStats) (p event_dt : ℤ) : PyDec :=
  decSub (decOfInt p) (get_overall_interest s event_dt)

/-- The state after the interest bookkeeping of steps 1 and 2. -/
def ppS1 (s : AdvanceStats) (p event_dt : ℤ) : AdvanceStats :=
  { s with
    overall_interest_payable_balance := get_overall_interest s event_dt,
    overall_interest_paid :=
      if decLt (get_overall_interest s event_dt) (decOfInt p) then
        decAdd s.overall_interest_paid (get_overall_interest s event_dt)
      else decAdd s.overall_interest_paid (decOfInt p) }

/-- The state after the reduction sweep. -/
def ppS2 (s : AdvanceStats) (p event_dt : ℤ) : AdvanceStats :=
  reduce_advances (ppS1 s p event_dt) (ppAfter s p event_dt) event_dt

/-- Model of `amount_after_advance_balance_payed`. -/
def ppSurplus (s : AdvanceStats) (p event_dt : ℤ) : PyDec :=
  decSub (ppAfter s p event_dt) (ppS2 s p event_dt).overall_advance_balance

/-- Credit is never negative, and positive credit forces a zero balance. -/
def CreditInv (s : AdvanceStats) : Prop :=
  0 ≤ val s.overall_payments_for_future ∧
    (0 < val s.overall_payments_for_future → val s.overall_advance_balance = 0)

-- Cursor bound and zeroed prefix.

def CursorInv (s : AdvanceStats) : Prop :=
  s.first_not_fully_paid_advance_index ≤ s.advances.length

def PrefixZero (s : AdvanceStats) : Prop :=
  ∀ a ∈ s.advances.take s.first_not_fully_paid_advance_index, val a.current_amount = 0

/-- The invariants behind claim C2: credit facts, nonnegative balance,
cursor in range, zeroed prefix. -/
def BalInvariants (s : AdvanceStats) : Prop :=
  CreditInv s ∧ 0 ≤ val s.overall_advance_balance ∧ CursorInv s ∧ PrefixZero s

/-- The invariants behind claim C6. -/
def RangeInvariants (s : AdvanceStats) : Prop :=
  CreditInv s ∧ ∀ a ∈ s.advances, AdvOk a

/-- Events supplied in non-decreasing date order (dates compared after
parsing, as the spec's ordering contract). -/
def DateOrdered (evs : List Event) : Prop :=
  List.Chain' (fun e1 e2 => ∀ d1 d2, strptimeYMD e1.date = .ok d1 →
    strptimeYMD e2.date = .ok d2 → d1 ≤ d2) evs

/-- Engine states reachable from a fresh engine by a date-ordered event
stream under some cutoff. -/
def ReachableState (s : AdvanceStats) : Prop :=
  ∃ (evs : List Event) (end_dt : ℤ), DateOrdered evs ∧
    process_events end_dt initStats evs = .ok s

-- Concrete scenario inputs and the states the engine reaches on them
-- (each run equality is checked by kernel computation).

set_option maxRecDepth 1000000

/-- Scenario A: advance of 1000 on 2022-01-01 (day 0). -/
def evA : Event := ⟨1, "advance", 1000, "2022-01-01"⟩

/-- Scenario A: payment of 1000 on 2022-01-11 (day 10). -/
def evP : Event := ⟨2, "payment", 1000, "2022-01-11"⟩

/-- Day-0 ordinal (`date(2022, 1, 1).toordinal()`). -/
def day0 : ℤ := 738156

/-- Day-10 ordinal (`date(2022, 1, 11).toordinal()`). -/
def day10 : ℤ := 738166

/-- The state after Scenario A's advance event. -/
def stA : AdvanceStats :=
  ⟨⟨1000, 0⟩, ⟨0, 0⟩, ⟨0, 0⟩, ⟨0, 0⟩,
    [⟨1, "advance", 1000, "2022-01-01", ⟨1000, 0⟩, 738156⟩], 0⟩

/-- The advance record of Scenario A after the payment: `current_amount`
is `3.4999999999999999644381687`, not `0`. -/
def advA1 : Advance :=
  ⟨1, "advance", 1000, "2022-01-01", ⟨34999999999999999644381687, -25⟩, 738166⟩

/-- The state after Scenario A's two events: interest payable and paid are
`3.499999999999999964438168742` (the float-contaminated rate times 10000,
context-rounded), and the advance is only partially reduced. -/
def stScenarioA : AdvanceStats :=
  ⟨⟨34999999999999999644381687, -25⟩, ⟨3499999999999999964438168742, -27⟩,
    ⟨3499999999999999964438168742, -27⟩, ⟨0, 0⟩, [advA1], 0⟩

-- Claim C2's counterexample inputs: scenario A followed by a further
-- advance of 1000 (aggregate/detail rounding drift), then an advance of
-- -2000 (negative balance).

def evA2 : Event := ⟨3, "advance", 1000, "2022-01-11"⟩

def evNeg : Event := ⟨4, "advance", -2000, "2022-01-11"⟩

def cx2evs : List Event := [evA, evP, evA2, evNeg]

def advA2 : Advance := ⟨3, "advance", 1000, "2022-01-11", ⟨1000, 0⟩, 738166⟩

def advNeg2 : Advance := ⟨4, "advance", -2000, "2022-01-11", ⟨-2000, 0⟩, 738166⟩

/-- State after the first three events of `cx2evs`: the aggregate balance
has been rounded to 28 digits and no longer equals the exact sum of the
per-advance amounts. -/
def stC2a : AdvanceStats :=
  ⟨⟨1003499999999999999964438169, -24⟩, ⟨3499999999999999964438168742, -27⟩,
    ⟨3499999999999999964438168742, -27⟩, ⟨0, 0⟩, [advA1, advA2], 0⟩

/-- State after all four events of `cx2evs`: the balance is negative. -/
def stC2b : AdvanceStats :=
  ⟨⟨-996500000000000000035561831, -24⟩, ⟨3499999999999999964438168742, -27⟩,
    ⟨3499999999999999964438168742, -27⟩, ⟨0, 0⟩, [advA1, advA2, advNeg2], 0⟩

-- Claim C6's counterexample inputs.

def evNeg5 : Event := ⟨1, "advance", -5, "2022-01-01"⟩

def advNeg5 : Advance := ⟨1, "advance", -5, "2022-01-01", ⟨-5, 0⟩, 738156⟩

def stNeg5 : AdvanceStats := ⟨⟨-5, 0⟩, ⟨0, 0⟩, ⟨0, 0⟩, ⟨0, 0⟩, [advNeg5], 0⟩

def evP1007 : Event := ⟨2, "payment", 1007, "2022-01-11"⟩

def evBig : Event := ⟨3, "advance", 99999999999999999999999999999, "2022-01-11"⟩

def cx6evs : List Event := [evA, evP1007, evBig]

/-- After a payment of 1007 on day 10 the banked credit is
`3.500000000000000035561831`; issuing an advance of `10^29 - 1` then sets
`current_amount = round28((10^29 - 1) - credit) = 10^29`, strictly above
the initial amount. -/
def advBig : Advance :=
  ⟨3, "advance", 99999999999999999999999999999, "2022-01-11",
    ⟨1000000000000000000000000000, 2⟩, 738166⟩

def advA1z : Advance := ⟨1, "advance", 1000, "2022-01-01", ⟨0, 0⟩, 738166⟩

def stC6 : AdvanceStats :=
  ⟨⟨1000000000000000000000000000, 2⟩, ⟨3499999999999999964438168742, -27⟩,
    ⟨3499999999999999964438168742, -27⟩, ⟨0, 0⟩, [advA1z, advBig], 1⟩

def stP1007 : AdvanceStats :=
  ⟨⟨0, 0⟩, ⟨3499999999999999964438168742, -27⟩, ⟨3499999999999999964438168742, -27⟩,
    ⟨3500000000000000035561831, -24⟩, [advA1z], 1⟩

-- Claim C3's counterexample inputs.

def evPHuge : Event := ⟨2, "payment", 100000000000000000000000000000000000, "2022-01-11"⟩

/-- After an overpayment of `10^35` the banked credit is stored as
`1.000000000000000000000000000E+35` (the context rounded it up to a
one-ulp-10 grid), and subtracting 1 from it rounds straight back. -/
def stHuge : AdvanceStats :=
  ⟨⟨0, 0⟩, ⟨3499999999999999964438168742, -27⟩, ⟨3499999999999999964438168742, -27⟩,
    ⟨1000000000000000000000000000, 8⟩, [advA1z], 1⟩

def evOne : Event := ⟨3, "advance", 1, "2022-01-11"⟩

def advOneRec : Advance := mkAdvanceRecord evOne 738166

-- Claim C10's counterexample inputs.

def evH1 : Event := ⟨1, "advance", 100, "2022-01-01"⟩

def evH2 : Event := ⟨2, "advance", -100, "2022-01-01"⟩

def evH3 : Event := ⟨3, "payment", 1, "2022-01-11"⟩

def cx10evs : List Event := [evH1, evH2, evH3]

def advH1 : Advance :=
  ⟨1, "advance", 100, "2022-01-01", ⟨9900000000000000000000000000, -26⟩, 738166⟩

def advH2 : Advance := ⟨2, "advance", -100, "2022-01-01", ⟨-100, 0⟩, 738166⟩

/-- After `cx10evs` the banked credit is 1 while the first advance still
carries `current_amount = 99`. -/
def stC10 : AdvanceStats :=
  ⟨⟨0, 0⟩, ⟨0, -28⟩, ⟨0, -28⟩, ⟨1000000000000000000000000000, -27⟩,
    [advH1, advH2], 0⟩

/-- Modelled from the claim's wording: the exact zero-padded `YYYY-MM-DD`
shape (four digits, dash, two digits, dash, two digits). -/
def isStrictYMD (str : String) : Bool :=
  match str.toList with
  | [y1, y2, y3, y4, c1, m1, m2, c2, d1, d2] =>
    y1.isDigit && y2.isDigit && y3.isDigit && y4.isDigit && c1 == '-' &&
      m1.isDigit && m2.isDigit && c2 == '-' && d1.isDigit && d2.isDigit
  | _ => false

/-- The exact difference of two Decimals fits in the 28-digit context
precision (in which case the context subtraction is exact). -/
def decSubFits (a b : PyDec) : Prop :=
  numDigits (alignM a (min a.e b.e) +
    alignM ⟨-b.m, b.e⟩ (min a.e b.e)).natAbs ≤ PREC

def stW5 : AdvanceStats :=
  ⟨⟨150, 0⟩, ⟨0, 0⟩, ⟨0, 0⟩, ⟨0, 0⟩,
    [⟨1, "advance", 100, "2022-01-01", ⟨100, 0⟩, 738156⟩,
     ⟨2, "advance", 50, "2022-01-01", ⟨50, 0⟩, 738156⟩], 0⟩

-- Basic facts about `numDigits`.

theorem numDigitsFuel_le_iff (f : ℕ) :
    ∀ n k : ℕ, n ≤ f → (numDigitsFuel f n ≤ k ↔ n < 10 ^ k) := by
  induction f with
  | zero =>
    intro n k hn
    interval_cases n
    simp only [numDigitsFuel, Nat.zero_le, true_iff]
    positivity
  | succ f ih =>
    intro n k hn
    by_cases h0 : n = 0
    · subst h0
      have h1 : numDigitsFuel (f + 1) 0 = 0 := by simp [numDigitsFuel]
      rw [h1]
      simp only [Nat.zero_le, true_iff]
      positivity
    · rw [numDigitsFuel, if_neg h0]
      cases k with
      | zero =>
        simp only [Nat.add_one_le_iff, Nat.pow_zero, Nat.lt_one_iff]
        constructor
        · intro h; omega
        · intro h; exact absurd h h0
      | succ k =>
        have hdiv : n / 10 ≤ f := by
          have : n / 10 < n := Nat.div_lt_self (Nat.pos_of_ne_zero h0) (by norm_num)
          omega
        rw [Nat.add_le_add_iff_right, ih (n / 10) k hdiv]
        rw [Nat.div_lt_iff_lt_mul (by norm_num : 0 < 10)]
        rw [pow_succ]

theorem numDigits_le_iff (n k : ℕ) : numDigits n ≤ k ↔ n < 10 ^ k :=
  numDigitsFuel_le_iff n n k le_rfl

theorem lt_pow_numDigits (n : ℕ) : n < 10 ^ numDigits n :=
  (numDigits_le_iff n (numDigits n)).1 le_rfl

theorem pow_pred_le_of_digits (n d : ℕ) (h : d + 1 ≤ numDigits n) :
    10 ^ d ≤ n := by
  by_contra h'
  push_neg at h'
  have := (numDigits_le_iff n d).2 h'
  omega

-- Sign and bound lemmas for the rounding model.

theorem rndHalfEven_ge_div (a p : ℕ) : a / p ≤ rndHalfEven a p := by
  simp only [rndHalfEven]
  split_ifs <;> omega

theorem rndHalfEven_le_succ_div (a p : ℕ) : rndHalfEven a p ≤ a / p + 1 := by
  simp only [rndHalfEven]
  split_ifs <;> omega

theorem rndHalfEven_eq_div_of_dvd (a p : ℕ) (hp : 2 ≤ p) (h : p ∣ a) :
    rndHalfEven a p = a / p := by
  have hr : a % p = 0 := by
    obtain ⟨c, rfl⟩ := h
    exact Nat.mul_mod_right p c
  simp only [rndHalfEven, hr]
  rw [if_neg (by omega), if_pos (by omega)]

theorem rndHalfEven_le_of_le (a p t : ℕ) (hp : 2 ≤ p) (ht : a ≤ p * t) :
    rndHalfEven a p ≤ t := by
  by_cases hd : p ∣ a
  · rw [rndHalfEven_eq_div_of_dvd a p hp hd]
    calc a / p ≤ (p * t) / p := Nat.div_le_div_right ht
      _ = t := Nat.mul_div_cancel_left t (by omega)
  · have hq := Nat.div_add_mod a p
    have hr0 : a % p ≠ 0 := fun hc => hd (Nat.dvd_of_mod_eq_zero hc)
    have hlt : a / p < t := by
      by_contra hc
      push_neg at hc
      have : p * t ≤ p * (a / p) := Nat.mul_le_mul_left p hc
      omega
    calc rndHalfEven a p ≤ a / p + 1 := rndHalfEven_le_succ_div a p
      _ ≤ t := by omega

theorem ten_zpow_pos (e : ℤ) : (0 : ℚ) < (10 : ℚ) ^ e :=
  zpow_pos (by norm_num) e

theorem ten_zpow_ne_zero (e : ℤ) : ((10 : ℚ) ^ e) ≠ 0 :=
  ne_of_gt (ten_zpow_pos e)

theorem val_pos_iff (a : PyDec) : 0 < val a ↔ 0 < a.m := by
  unfold val
  rw [mul_pos_iff]
  constructor
  · rintro (⟨h, -⟩ | ⟨-, h⟩)
    · exact_mod_cast h
    · exact absurd (ten_zpow_pos a.e) (not_lt.2 (le_of_lt h))
  · intro h
    exact Or.inl ⟨by exact_mod_cast h, ten_zpow_pos a.e⟩

theorem val_neg_iff (a : PyDec) : val a < 0 ↔ a.m < 0 := by
  unfold val
  rw [mul_neg_iff]
  constructor
  · rintro (⟨-, h⟩ | ⟨h, -⟩)
    · exact absurd (ten_zpow_pos a.e) (not_lt.2 (le_of_lt h))
    · exact_mod_cast h
  · intro h
    exact Or.inr ⟨by exact_mod_cast h, ten_zpow_pos a.e⟩

theorem val_eq_zero_iff (a : PyDec) : val a = 0 ↔ a.m = 0 := by
  unfold val
  rw [mul_eq_zero]
  constructor
  · rintro (h | h)
    · exact_mod_cast h
    · exact absurd h (ten_zpow_ne_zero a.e)
  · intro h
    exact Or.inl (by exact_mod_cast h)

theorem val_nonneg_iff (a : PyDec) : 0 ≤ val a ↔ 0 ≤ a.m := by
  constructor
  · intro h
    by_contra hc
    push_neg at hc
    exact absurd ((val_neg_iff a).2 hc) (not_lt.2 h)
  · intro h
    rcases lt_or_eq_of_le h with h' | h'
    · exact le_of_lt ((val_pos_iff a).2 h')
    · exact le_of_eq (((val_eq_zero_iff a).2 h'.symm).symm)

theorem val_nonpos_iff (a : PyDec) : val a ≤ 0 ↔ a.m ≤ 0 := by
  constructor
  · intro h
    by_contra hc
    push_neg at hc
    exact absurd ((val_pos_iff a).2 hc) (not_lt.2 h)
  · intro h
    rcases lt_or_eq_of_le h with h' | h'
    · exact le_of_lt ((val_neg_iff a).2 h')
    · exact le_of_eq ((val_eq_zero_iff a).2 h')

theorem alignM_val (a : PyDec) (E : ℤ) (h : E ≤ a.e) :
    (alignM a E : ℚ) * (10 : ℚ) ^ E = val a := by
  have h' : ((a.e - E).toNat : ℤ) = a.e - E := Int.toNat_of_nonneg (by omega)
  unfold alignM val
  push_cast
  rw [mul_assoc, ← zpow_natCast (10 : ℚ) (a.e - E).toNat,
    ← zpow_add₀ (by norm_num : (10 : ℚ) ≠ 0), h', sub_add_cancel]

theorem decRound_m_of_le (M E : ℤ) (h : numDigits M.natAbs ≤ PREC) :
    decRound M E = ⟨M, E⟩ := by
  unfold decRound
  rw [if_pos h]

/-- Positivity of the coefficient after rounding, for positive input. -/
theorem rnd_pos_aux (M : ℤ) (hn : PREC < numDigits M.natAbs) :
    0 < rndHalfEven M.natAbs (10 ^ (numDigits M.natAbs - PREC)) := by
  have hP : PREC = 28 := rfl
  have h1 : 10 ^ (numDigits M.natAbs - 1) ≤ M.natAbs :=
    pow_pred_le_of_digits _ _ (by omega)
  have h2 : 10 ^ (PREC - 1) ≤ M.natAbs / 10 ^ (numDigits M.natAbs - PREC) := by
    rw [Nat.le_div_iff_mul_le (Nat.pos_pow_of_pos _ (by norm_num))]
    rw [← pow_add]
    calc 10 ^ (PREC - 1 + (numDigits M.natAbs - PREC))
        ≤ 10 ^ (numDigits M.natAbs - 1) := by
          apply Nat.pow_le_pow_right (by norm_num)
          omega
      _ ≤ M.natAbs := h1
  have h3 := rndHalfEven_ge_div M.natAbs (10 ^ (numDigits M.natAbs - PREC))
  have h4 : 0 < 10 ^ (PREC - 1) := Nat.pos_pow_of_pos _ (by norm_num)
  exact lt_of_lt_of_le (lt_of_lt_of_le h4 h2) h3

theorem decRound_m_pos (M E : ℤ) (h : 0 < M) : 0 < (decRound M E).m := by
  simp only [decRound]
  by_cases hn : numDigits M.natAbs ≤ PREC
  · rw [if_pos hn]; exact h
  · rw [if_neg hn]
    push_neg at hn
    have hs : ¬ M < 0 := by omega
    have hq : (0 : ℤ) < (rndHalfEven M.natAbs (10 ^ (numDigits M.natAbs - PREC)) : ℤ) := by
      exact_mod_cast rnd_pos_aux M hn
    have hp : (0 : ℤ) < (10 : ℤ) ^ (PREC - 1) := by positivity
    rw [if_neg hs]
    split_ifs with hc <;> dsimp only <;> omega

theorem decRound_m_zero (E : ℤ) : decRound 0 E = ⟨0, E⟩ := by
  unfold decRound
  rw [if_pos (by simp [numDigits, numDigitsFuel])]

theorem decRound_m_neg (M E : ℤ) (h : M < 0) : (decRound M E).m < 0 := by
  simp only [decRound]
  by_cases hn : numDigits M.natAbs ≤ PREC
  · rw [if_pos hn]; exact h
  · rw [if_neg hn]
    push_neg at hn
    have hq : (0 : ℤ) < (rndHalfEven M.natAbs (10 ^ (numDigits M.natAbs - PREC)) : ℤ) := by
      exact_mod_cast rnd_pos_aux M hn
    have hp : (0 : ℤ) < (10 : ℤ) ^ (PREC - 1) := by positivity
    rw [if_pos h]
    split_ifs with hc <;> dsimp only <;> omega

theorem val_decRound_nonneg (M E : ℤ) (h : 0 ≤ M) : 0 ≤ val (decRound M E) := by
  rcases lt_or_eq_of_le h with h' | h'
  · exact le_of_lt ((val_pos_iff _).2 (decRound_m_pos M E h'))
  · rw [← h', decRound_m_zero]
    exact le_of_eq (((val_eq_zero_iff _).2 rfl).symm)

theorem val_decRound_nonpos (M E : ℤ) (h : M ≤ 0) : val (decRound M E) ≤ 0 := by
  rcases lt_or_eq_of_le h with h' | h'
  · exact le_of_lt ((val_neg_iff _).2 (decRound_m_neg M E h'))
  · rw [h', decRound_m_zero]
    exact le_of_eq ((val_eq_zero_iff _).2 rfl)

theorem val_decRound_pos_iff (M E : ℤ) : 0 < val (decRound M E) ↔ 0 < M := by
  constructor
  · intro h
    by_contra hc
    push_neg at hc
    exact absurd h (not_lt.2 (val_decRound_nonpos M E hc))
  · exact fun h => (val_pos_iff _).2 (decRound_m_pos M E h)

theorem val_decRound_nonpos_iff (M E : ℤ) : val (decRound M E) ≤ 0 ↔ M ≤ 0 := by
  constructor
  · intro h
    by_contra hc
    push_neg at hc
    exact absurd ((val_pos_iff _).2 (decRound_m_pos M E hc)) (not_lt.2 h)
  · exact val_decRound_nonpos M E

theorem zpow_ten_add (x y : ℤ) : (10 : ℚ) ^ (x + y) = (10 : ℚ) ^ x * (10 : ℚ) ^ y :=
  zpow_add₀ (by norm_num) x y

/-- Value of a context-rounded result in the genuinely rounding case. -/
theorem decRound_spec (M E : ℤ) (hM : 0 ≤ M) (hn : PREC < numDigits M.natAbs) :
    val (decRound M E) =
      (rndHalfEven M.natAbs (10 ^ (numDigits M.natAbs - PREC)) : ℚ) *
        (10 : ℚ) ^ (E + ((numDigits M.natAbs - PREC : ℕ) : ℤ)) := by
  have hs : ¬ M < 0 := by omega
  simp only [decRound]
  rw [if_neg (by omega), if_neg hs]
  split_ifs with hc
  · rw [hc]
    unfold val
    push_cast
    rw [one_mul, ← zpow_natCast (10 : ℚ) (PREC - 1), ← zpow_natCast (10 : ℚ) PREC]
    rw [← zpow_ten_add, ← zpow_ten_add]
    congr 1
    have : PREC = 28 := rfl
    omega
  · unfold val
    push_cast
    rw [one_mul]

theorem val_decRound_le_int (M E B : ℤ) (hM : 0 ≤ M) (hB : B < 10 ^ PREC)
    (h : (M : ℚ) * (10 : ℚ) ^ E ≤ (B : ℚ)) : val (decRound M E) ≤ (B : ℚ) := by
  by_cases hn : numDigits M.natAbs ≤ PREC
  · rw [decRound_m_of_le M E hn]
    exact h
  · push_neg at hn
    have hP : PREC = 28 := rfl
    have haM : (M.natAbs : ℤ) = M := Int.natAbs_of_nonneg hM
    have hMpos : 0 < M := by
      by_contra hc
      push_neg at hc
      have hM0 : M = 0 := le_antisymm hc hM
      rw [hM0] at hn
      simp [numDigits, numDigitsFuel] at hn
    have hExp : E < 0 := by
      by_contra hc
      push_neg at hc
      have h10 : (1 : ℚ) ≤ (10 : ℚ) ^ E := by
        rw [show E = ((E.toNat : ℕ) : ℤ) from (Int.toNat_of_nonneg hc).symm, zpow_natCast]
        exact one_le_pow₀ (by norm_num)
      have hM28 : (10 : ℚ) ^ (28 : ℕ) ≤ (M : ℚ) := by
        have h1 : 10 ^ (numDigits M.natAbs - 1) ≤ M.natAbs :=
          pow_pred_le_of_digits _ _ (by omega)
        have h2 : (10 : ℕ) ^ (28 : ℕ) ≤ 10 ^ (numDigits M.natAbs - 1) :=
          Nat.pow_le_pow_right (by norm_num) (by omega)
        have h3 : (10 : ℕ) ^ (28 : ℕ) ≤ M.natAbs := le_trans h2 h1
        have h4 : ((10 : ℕ) ^ (28 : ℕ) : ℤ) ≤ M := by
          rw [← haM]; exact_mod_cast h3
        calc (10 : ℚ) ^ (28 : ℕ) = (((10 : ℕ) ^ (28 : ℕ) : ℤ) : ℚ) := by push_cast; ring
          _ ≤ (M : ℚ) := by exact_mod_cast h4
      have hBQ : (B : ℚ) < (10 : ℚ) ^ (28 : ℕ) := by
        have hB' : B < (10 : ℤ) ^ (28 : ℕ) := hB
        calc (B : ℚ) < (((10 : ℤ) ^ (28 : ℕ) : ℤ) : ℚ) := by exact_mod_cast hB'
          _ = (10 : ℚ) ^ (28 : ℕ) := by push_cast; ring
      nlinarith [ten_zpow_pos E]
    have hm0 : (((-E).toNat : ℕ) : ℤ) = -E := Int.toNat_of_nonneg (by omega)
    have hMB : M ≤ B * 10 ^ (-E).toNat := by
      have h10 : (0 : ℚ) < (10 : ℚ) ^ ((-E).toNat : ℕ) := by positivity
      have hmul := mul_le_mul_of_nonneg_right h (le_of_lt h10)
      have hone : (10 : ℚ) ^ E * (10 : ℚ) ^ ((-E).toNat : ℕ) = 1 := by
        rw [← zpow_natCast (10 : ℚ) (-E).toNat, ← zpow_ten_add,
          show E + (((-E).toNat : ℕ) : ℤ) = 0 by omega]
        rfl
      rw [mul_assoc, hone, mul_one] at hmul
      exact_mod_cast hmul
    have hB0 : 0 ≤ B := by
      by_contra hc
      push_neg at hc
      have hneg : B * 10 ^ (-E).toNat < 0 :=
        mul_neg_of_neg_of_pos hc (by positivity)
      omega
    have hBnZ : ((B.toNat * 10 ^ (-E).toNat : ℕ) : ℤ) = B * 10 ^ (-E).toNat := by
      push_cast [Int.toNat_of_nonneg hB0]
      ring
    have haBn : M.natAbs ≤ B.toNat * 10 ^ (-E).toNat := by
      have hz : (M.natAbs : ℤ) ≤ ((B.toNat * 10 ^ (-E).toNat : ℕ) : ℤ) := by
        rw [haM, hBnZ]; exact hMB
      exact_mod_cast hz
    have hkm0 : numDigits M.natAbs - PREC ≤ (-E).toNat := by
      have hBt : B.toNat < 10 ^ (28 : ℕ) := by
        have hcast : (((10 : ℕ) ^ (28 : ℕ) : ℕ) : ℤ) = (10 : ℤ) ^ (28 : ℕ) := by
          push_cast
          try ring
        have hB' : B < (10 : ℤ) ^ (28 : ℕ) := hB
        omega
      have hBn_lt : B.toNat * 10 ^ (-E).toNat < 10 ^ (28 + (-E).toNat) := by
        rw [pow_add]
        exact (Nat.mul_lt_mul_right (by positivity)).2 hBt
      have hn_le : numDigits M.natAbs ≤ numDigits (B.toNat * 10 ^ (-E).toNat) := by
        have h1 : 10 ^ (numDigits M.natAbs - 1) ≤ M.natAbs :=
          pow_pred_le_of_digits _ _ (by omega)
        by_contra hc
        push_neg at hc
        have := (numDigits_le_iff (B.toNat * 10 ^ (-E).toNat)
          (numDigits M.natAbs - 1)).1 (by omega)
        omega
      have := (numDigits_le_iff (B.toNat * 10 ^ (-E).toNat) (28 + (-E).toNat)).2 hBn_lt
      omega
    obtain ⟨t, ht⟩ : (10 : ℕ) ^ (numDigits M.natAbs - PREC) ∣ B.toNat * 10 ^ (-E).toNat :=
      (pow_dvd_pow 10 hkm0).mul_left B.toNat
    have hq' : rndHalfEven M.natAbs (10 ^ (numDigits M.natAbs - PREC)) ≤ t :=
      rndHalfEven_le_of_le M.natAbs (10 ^ (numDigits M.natAbs - PREC)) t
        (by calc (2 : ℕ) ≤ 10 ^ 1 := by norm_num
              _ ≤ 10 ^ (numDigits M.natAbs - PREC) :=
                Nat.pow_le_pow_right (by norm_num) (by omega))
        (ht ▸ haBn)
    rw [decRound_spec M E hM hn]
    have hfin : (t : ℚ) *
        (10 : ℚ) ^ (E + ((numDigits M.natAbs - PREC : ℕ) : ℤ)) = (B : ℚ) := by
      have h1 : ((10 ^ (numDigits M.natAbs - PREC) * t : ℕ) : ℚ) =
          ((B.toNat * 10 ^ (-E).toNat : ℕ) : ℚ) := by
        exact_mod_cast congrArg (fun z => ((z : ℕ) : ℚ)) ht.symm
      have hone : (10 : ℚ) ^ ((-E).toNat : ℕ) * (10 : ℚ) ^ E = 1 := by
        rw [← zpow_natCast (10 : ℚ) (-E).toNat, ← zpow_ten_add,
          show (((-E).toNat : ℕ) : ℤ) + E = 0 by omega]
        rfl
      calc (t : ℚ) * (10 : ℚ) ^ (E + ((numDigits M.natAbs - PREC : ℕ) : ℤ))
          = (t : ℚ) * ((10 : ℚ) ^ E *
            (10 : ℚ) ^ (((numDigits M.natAbs - PREC : ℕ) : ℤ))) := by
            rw [zpow_ten_add]
        _ = ((10 ^ (numDigits M.natAbs - PREC) * t : ℕ) : ℚ) * (10 : ℚ) ^ E := by
            rw [zpow_natCast]
            push_cast
            ring
        _ = ((B.toNat * 10 ^ (-E).toNat : ℕ) : ℚ) * (10 : ℚ) ^ E := by rw [h1]
        _ = (B : ℚ) * ((10 : ℚ) ^ ((-E).toNat : ℕ) * (10 : ℚ) ^ E) := by
            have hBtoQ : ((B.toNat : ℕ) : ℚ) = (B : ℚ) := by
              exact_mod_cast congrArg (fun z : ℤ => (z : ℚ)) (Int.toNat_of_nonneg hB0)
            push_cast
            rw [hBtoQ]
            ring
        _ = (B : ℚ) := by rw [hone, mul_one]
    calc (rndHalfEven M.natAbs (10 ^ (numDigits M.natAbs - PREC)) : ℚ) *
        (10 : ℚ) ^ (E + ((numDigits M.natAbs - PREC : ℕ) : ℤ))
        ≤ (t : ℚ) * (10 : ℚ) ^ (E + ((numDigits M.natAbs - PREC : ℕ) : ℤ)) := by
          apply mul_le_mul_of_nonneg_right _ (le_of_lt (ten_zpow_pos _))
          exact_mod_cast hq'
      _ = (B : ℚ) := hfin

-- Value characterizations of the Decimal operations and comparisons.

theorem decAdd_exact_val (a b : PyDec) :
    ((alignM a (min a.e b.e) + alignM b (min a.e b.e) : ℤ) : ℚ) *
      (10 : ℚ) ^ (min a.e b.e) = val a + val b := by
  push_cast
  rw [add_mul, alignM_val a _ (min_le_left _ _), alignM_val b _ (min_le_right _ _)]

theorem val_neg_mk (b : PyDec) : val ⟨-b.m, b.e⟩ = -(val b) := by
  unfold val
  push_cast
  ring

theorem decSub_exact_val (a b : PyDec) :
    ((alignM a (min a.e b.e) + alignM ⟨-b.m, b.e⟩ (min a.e b.e) : ℤ) : ℚ) *
      (10 : ℚ) ^ (min a.e b.e) = val a - val b := by
  have h := decAdd_exact_val a ⟨-b.m, b.e⟩
  rw [val_neg_mk] at h
  exact h.trans (by ring)

theorem val_mk_eq (M E : ℤ) : val ⟨M, E⟩ = (M : ℚ) * (10 : ℚ) ^ E := rfl

theorem val_decRound_pos_iff_val (M E : ℤ) :
    0 < val (decRound M E) ↔ 0 < val ⟨M, E⟩ := by
  rw [val_decRound_pos_iff, val_pos_iff]

theorem val_decRound_nonpos_iff_val (M E : ℤ) :
    val (decRound M E) ≤ 0 ↔ val ⟨M, E⟩ ≤ 0 := by
  rw [val_decRound_nonpos_iff, val_nonpos_iff]

theorem decAdd_def (a b : PyDec) :
    decAdd a b = decRound (alignM a (min a.e b.e) + alignM b (min a.e b.e)) (min a.e b.e) :=
  rfl

theorem decSub_def (a b : PyDec) :
    decSub a b = decRound (alignM a (min a.e b.e) + alignM ⟨-b.m, b.e⟩ (min a.e b.e))
      (min a.e b.e) := rfl

theorem val_decSub_pos_iff (a b : PyDec) :
    0 < val (decSub a b) ↔ val b < val a := by
  rw [decSub_def, val_decRound_pos_iff_val, val_mk_eq, decSub_exact_val, sub_pos]

theorem val_decSub_nonpos_iff (a b : PyDec) :
    val (decSub a b) ≤ 0 ↔ val a ≤ val b := by
  rw [decSub_def, val_decRound_nonpos_iff_val, val_mk_eq, decSub_exact_val, sub_nonpos]

theorem val_decAdd_pos_iff (a b : PyDec) :
    0 < val (decAdd a b) ↔ 0 < val a + val b := by
  rw [decAdd_def, val_decRound_pos_iff_val, val_mk_eq, decAdd_exact_val]

theorem val_decAdd_nonneg (a b : PyDec) (h : 0 ≤ val a + val b) :
    0 ≤ val (decAdd a b) := by
  rw [decAdd_def]
  apply val_decRound_nonneg
  rw [← val_nonneg_iff ⟨_, _⟩, val_mk_eq, decAdd_exact_val]
  exact h

theorem val_decSub_nonneg (a b : PyDec) (h : val b ≤ val a) :
    0 ≤ val (decSub a b) := by
  rw [decSub_def]
  apply val_decRound_nonneg
  rw [← val_nonneg_iff ⟨_, _⟩, val_mk_eq, decSub_exact_val]
  exact sub_nonneg.2 h

theorem val_decAdd_le_int (a b : PyDec) (B : ℤ) (h0 : 0 ≤ val a + val b)
    (hB : B < 10 ^ PREC) (h : val a + val b ≤ (B : ℚ)) :
    val (decAdd a b) ≤ (B : ℚ) := by
  rw [decAdd_def]
  apply val_decRound_le_int
  · rw [← val_nonneg_iff ⟨_, _⟩, val_mk_eq, decAdd_exact_val] at *
    exact h0
  · exact hB
  · rw [decAdd_exact_val]
    exact h

theorem val_decSub_le_int (a b : PyDec) (B : ℤ) (h0 : val b ≤ val a)
    (hB : B < 10 ^ PREC) (h : val a - val b ≤ (B : ℚ)) :
    val (decSub a b) ≤ (B : ℚ) := by
  rw [decSub_def]
  apply val_decRound_le_int
  · rw [← val_nonneg_iff ⟨_, _⟩, val_mk_eq, decSub_exact_val]
    exact sub_nonneg.2 h0
  · exact hB
  · rw [decSub_exact_val]
    exact h

theorem decLt_iff_val (a b : PyDec) : decLt a b ↔ val a < val b := by
  unfold decLt
  rw [← alignM_val a (min a.e b.e) (min_le_left _ _),
    ← alignM_val b (min a.e b.e) (min_le_right _ _)]
  rw [mul_lt_mul_right (ten_zpow_pos _)]
  exact ⟨fun h => by exact_mod_cast h, fun h => by exact_mod_cast h⟩

theorem decPos_iff_val (a : PyDec) : decPos a ↔ 0 < val a := (val_pos_iff a).symm

theorem decIsZero_iff_val (a : PyDec) : decIsZero a ↔ val a = 0 := (val_eq_zero_iff a).symm

theorem val_decOfInt (n : ℤ) : val (decOfInt n) = (n : ℚ) := by
  unfold val decOfInt
  rw [zpow_zero, mul_one]

theorem val_decMul_nonneg (a b : PyDec) (ha : 0 ≤ val a) (hb : 0 ≤ val b) :
    0 ≤ val (decMul a b) := by
  unfold decMul
  apply val_decRound_nonneg
  rw [val_nonneg_iff] at ha hb
  exact mul_nonneg ha hb

/-- A rounding that fits entirely in the context precision is exact. -/
theorem val_decAdd_of_fits (a b : PyDec)
    (hfit : numDigits (alignM a (min a.e b.e) + alignM b (min a.e b.e)).natAbs ≤ PREC) :
    val (decAdd a b) = val a + val b := by
  rw [decAdd_def, decRound_m_of_le _ _ hfit, val_mk_eq, decAdd_exact_val]

theorem val_decSub_of_fits (a b : PyDec)
    (hfit : numDigits (alignM a (min a.e b.e) +
      alignM ⟨-b.m, b.e⟩ (min a.e b.e)).natAbs ≤ PREC) :
    val (decSub a b) = val a - val b := by
  rw [decSub_def, decRound_m_of_le _ _ hfit, val_mk_eq, decSub_exact_val]

-- Read-only and frame lemmas.

theorem interestLoop_snd (end_dt : ℤ) (acc : PyDec) (l : List Advance) :
    (interestLoop end_dt acc l).2 = l := by
  induction l generalizing acc with
  | nil => rfl
  | cons a rest ih => simp [interestLoop, ih]

theorem reduce_advances_balance (s : AdvanceStats) (amount : PyDec) (event_dt : ℤ) :
    (reduce_advances s amount event_dt).overall_advance_balance =
      s.overall_advance_balance := rfl

theorem reduce_advances_credit (s : AdvanceStats) (amount : PyDec) (event_dt : ℤ) :
    (reduce_advances s amount event_dt).overall_payments_for_future =
      s.overall_payments_for_future := rfl

-- Structural lemmas about the reduction loop.

theorem reduceLoop_not_pos (r : PyDec) (event_dt : ℤ) (l : List Advance)
    (h : ¬ decPos r) : reduceLoop r event_dt l = (l.map (setLastModified event_dt), 0) := by
  cases l with
  | nil => rfl
  | cons a rest =>
    unfold reduceLoop
    rw [if_neg h]

theorem reduceLoop_length (r : PyDec) (event_dt : ℤ) (l : List Advance) :
    (reduceLoop r event_dt l).1.length = l.length := by
  induction l generalizing r with
  | nil => rfl
  | cons a rest ih =>
    by_cases h : decPos r
    · unfold reduceLoop
      rw [if_pos h]
      by_cases hlt : decLt a.current_amount r
      · rw [if_pos hlt]
        simpa using ih _
      · rw [if_neg hlt]
        simpa using ih _
    · rw [reduceLoop_not_pos r event_dt _ h]
      simp

theorem reduceLoop_k_le (r : PyDec) (event_dt : ℤ) (l : List Advance) :
    (reduceLoop r event_dt l).2 ≤ l.length := by
  induction l generalizing r with
  | nil => simp [reduceLoop]
  | cons a rest ih =>
    by_cases h : decPos r
    · unfold reduceLoop
      rw [if_pos h]
      by_cases hlt : decLt a.current_amount r
      · rw [if_pos hlt]
        have := ih (decSub r a.current_amount)
        simpa using Nat.add_le_add_right this 1
      · rw [if_neg hlt]
        have := ih (decSub r a.current_amount)
        simp only [List.length_cons]
        omega
    · rw [reduceLoop_not_pos r event_dt _ h]
      simp

/-- In the `else` branch the updated remaining amount is not positive:
the loop stops after that iteration. -/
theorem remaining_acc_not_pos (r : PyDec) (a : Advance)
    (h : ¬ decLt a.current_amount r) : ¬ decPos (decSub r a.current_amount) := by
  rw [decPos_iff_val, val_decSub_pos_iff]
  rw [decLt_iff_val] at h
  exact fun hc => h (by linarith)

/-- Unfolding equation: positive remaining, advance fully covered. -/
theorem reduceLoop_cons_lt (r : PyDec) (event_dt : ℤ) (a : Advance) (rest : List Advance)
    (h : decPos r) (hlt : decLt a.current_amount r) :
    reduceLoop r event_dt (a :: rest) =
      ({ a with current_amount := ⟨0, 0⟩, last_modified_date := event_dt } ::
        (reduceLoop (decSub r a.current_amount) event_dt rest).1,
        (reduceLoop (decSub r a.current_amount) event_dt rest).2 + 1) := by
  conv_lhs => rw [reduceLoop]
  rw [if_pos h, if_pos hlt]

/-- Unfolding equation: positive remaining, advance only partially covered. -/
theorem reduceLoop_cons_ge (r : PyDec) (event_dt : ℤ) (a : Advance) (rest : List Advance)
    (h : decPos r) (hlt : ¬ decLt a.current_amount r) :
    reduceLoop r event_dt (a :: rest) =
      ({ a with current_amount := decSub a.current_amount r, last_modified_date := event_dt } ::
        (reduceLoop (decSub r a.current_amount) event_dt rest).1,
        (reduceLoop (decSub r a.current_amount) event_dt rest).2) := by
  conv_lhs => rw [reduceLoop]
  rw [if_pos h, if_neg hlt]

/-- Every advance the cursor moves past has been zeroed in this very loop. -/
theorem reduceLoop_zeroed_front (r : PyDec) (event_dt : ℤ) (l : List Advance) :
    ∀ a' ∈ (reduceLoop r event_dt l).1.take (reduceLoop r event_dt l).2,
      val a'.current_amount = 0 := by
  induction l generalizing r with
  | nil =>
    intro a' ha'
    simp [reduceLoop] at ha'
  | cons a rest ih =>
    intro a' ha'
    by_cases h : decPos r
    · by_cases hlt : decLt a.current_amount r
      · rw [reduceLoop_cons_lt r event_dt a rest h hlt] at ha'
        simp only [List.take_succ_cons, List.mem_cons] at ha'
        rcases ha' with rfl | ha'
        · exact (val_eq_zero_iff _).2 rfl
        · exact ih _ a' ha'
      · rw [reduceLoop_cons_ge r event_dt a rest h hlt] at ha'
        rw [reduceLoop_not_pos _ _ _ (remaining_acc_not_pos r a hlt)] at ha'
        simp at ha'
    · rw [reduceLoop_not_pos _ _ _ h] at ha'
      simp at ha'

theorem setLastModified_current (d : ℤ) (a : Advance) :
    (setLastModified d a).current_amount = a.current_amount := rfl

/-- FIFO localization: if the loop decreased the advance at position `j`,
it zeroed every earlier position. -/
theorem reduceLoop_fifo (r : PyDec) (event_dt : ℤ) (l : List Advance) :
    ∀ j (hj : j < l.length) (hj' : j < (reduceLoop r event_dt l).1.length),
      val ((reduceLoop r event_dt l).1[j]).current_amount <
        val (l[j]).current_amount →
      ∀ i (hi : i < (reduceLoop r event_dt l).1.length), i < j →
        val ((reduceLoop r event_dt l).1[i]).current_amount = 0 := by
  induction l generalizing r with
  | nil =>
    intro j hj
    simp at hj
  | cons a rest ih =>
    intro j hj hj' hdec i hi hij
    by_cases h : decPos r
    · by_cases hlt : decLt a.current_amount r
      · have heq := reduceLoop_cons_lt r event_dt a rest h hlt
        cases i with
        | zero =>
          simp only [heq, List.getElem_cons_zero]
          exact (val_eq_zero_iff _).2 rfl
        | succ i =>
          cases j with
          | zero => omega
          | succ j =>
            simp only [heq, List.getElem_cons_succ] at hdec ⊢
            have hj2 : j < rest.length := by simpa using hj
            have hj2' : j < (reduceLoop (decSub r a.current_amount) event_dt rest).1.length := by
              simp only [heq] at hj'
              simpa using hj'
            have hi2 : i < (reduceLoop (decSub r a.current_amount) event_dt rest).1.length := by
              simp only [heq] at hi
              simpa using hi
            exact ih _ j hj2 hj2' hdec i hi2 (by omega)
      · exfalso
        have heq := reduceLoop_cons_ge r event_dt a rest h hlt
        have hmap := reduceLoop_not_pos _ event_dt rest (remaining_acc_not_pos r a hlt)
        cases j with
        | zero => omega
        | succ j =>
          have hj2 : j < rest.length := by simpa using hj
          simp only [heq, hmap, List.getElem_cons_succ] at hdec
          rw [List.getElem_map] at hdec
          rw [setLastModified_current] at hdec
          exact lt_irrefl _ hdec
    · have heq := reduceLoop_not_pos r event_dt (a :: rest) h
      exfalso
      simp only [heq] at hdec
      rw [List.getElem_map] at hdec
      rw [setLastModified_current] at hdec
      exact lt_irrefl _ hdec

theorem reduceLoop_advOk (r : PyDec) (event_dt : ℤ) (l : List Advance)
    (hl : ∀ a ∈ l, AdvOk a) : ∀ a' ∈ (reduceLoop r event_dt l).1, AdvOk a' := by
  induction l generalizing r with
  | nil =>
    intro a' ha'
    simp [reduceLoop] at ha'
  | cons a rest ih =>
    intro a' ha'
    have hrest : ∀ x ∈ rest, AdvOk x := fun x hx => hl x (List.mem_cons_of_mem _ hx)
    by_cases h : decPos r
    · by_cases hlt : decLt a.current_amount r
      · rw [reduceLoop_cons_lt r event_dt a rest h hlt] at ha'
        rcases List.mem_cons.mp ha' with rfl | h'
        · obtain ⟨h1, h2, h3, h4⟩ := hl a (List.mem_cons_self a rest)
          refine ⟨le_of_eq ((val_eq_zero_iff _).2 rfl).symm, ?_, h3, h4⟩
          rw [(val_eq_zero_iff (⟨0, 0⟩ : PyDec)).2 rfl]
          exact_mod_cast h3
        · exact ih _ hrest a' h'
      · rw [reduceLoop_cons_ge r event_dt a rest h hlt] at ha'
        rcases List.mem_cons.mp ha' with rfl | h'
        · obtain ⟨h1, h2, h3, h4⟩ := hl a (List.mem_cons_self a rest)
          have hr : 0 < val r := (decPos_iff_val r).1 h
          have hcr : val r ≤ val a.current_amount := by
            rw [decLt_iff_val] at hlt
            exact not_lt.1 hlt
          refine ⟨val_decSub_nonneg _ _ hcr, ?_, h3, h4⟩
          exact val_decSub_le_int a.current_amount r a.initial_amount hcr h4
            (by linarith)
        · exact ih _ hrest a' h'
    · rw [reduceLoop_not_pos _ _ _ h] at ha'
      obtain ⟨x, hx, rfl⟩ := List.mem_map.mp ha'
      exact hl x hx

-- Nonnegativity of accrued interest.

theorem rate_val_nonneg : 0 ≤ val ADVANCE_INTEREST_RATE := by
  rw [val_nonneg_iff]
  unfold ADVANCE_INTEREST_RATE
  positivity

theorem interestStep_nonneg (end_dt : ℤ) (acc : PyDec) (a : Advance)
    (hacc : 0 ≤ val acc) (ha : 0 ≤ val a.current_amount) :
    0 ≤ val (interestStep end_dt acc a) := by
  unfold interestStep
  by_cases h1 : end_dt < a.last_modified_date ∨ decIsZero a.current_amount
  · rw [if_pos h1]
    exact hacc
  · rw [if_neg h1]
    show 0 ≤ val (if end_dt - a.last_modified_date = 0 then acc
      else decAdd acc (decMul (decMul a.current_amount ADVANCE_INTEREST_RATE)
        ⟨end_dt - a.last_modified_date, 0⟩))
    by_cases h2 : end_dt - a.last_modified_date = 0
    · rw [if_pos h2]
      exact hacc
    · rw [if_neg h2]
      apply val_decAdd_nonneg
      have hterm : 0 ≤ val (decMul (decMul a.current_amount ADVANCE_INTEREST_RATE)
          ⟨end_dt - a.last_modified_date, 0⟩) := by
        apply val_decMul_nonneg
        · exact val_decMul_nonneg _ _ ha rate_val_nonneg
        · rw [val_nonneg_iff]
          push_neg at h1
          have := h1.1
          simp only []
          omega
      linarith

theorem interestLoop_nonneg (end_dt : ℤ) (acc : PyDec) (l : List Advance)
    (hacc : 0 ≤ val acc) (hl : ∀ a ∈ l, 0 ≤ val a.current_amount) :
    0 ≤ val (interestLoop end_dt acc l).1 := by
  induction l generalizing acc with
  | nil => exact hacc
  | cons a rest ih =>
    have h1 : 0 ≤ val (interestStep end_dt acc a) :=
      interestStep_nonneg end_dt acc a hacc (hl a (List.mem_cons_self a rest))
    exact ih _ h1 (fun x hx => hl x (List.mem_cons_of_mem _ hx))

theorem get_overall_interest_nonneg (s : AdvanceStats) (end_dt : ℤ)
    (h : ∀ a ∈ s.advances, 0 ≤ val a.current_amount) :
    0 ≤ val (get_overall_interest s end_dt) := by
  unfold get_overall_interest
  apply interestLoop_nonneg
  · exact le_of_eq ((val_eq_zero_iff _).2 rfl).symm
  · exact fun a ha => h a (List.drop_subset _ _ ha)

theorem process_payment_cases (s : AdvanceStats) (p event_dt : ℤ) :
    process_payment s p event_dt =
      if decPos (ppAfter s p event_dt) then
        (if decPos (ppSurplus s p event_dt) then
          { ppS2 s p event_dt with
            overall_advance_balance := ⟨0, 0⟩,
            overall_payments_for_future :=
              decAdd (ppS2 s p event_dt).overall_payments_for_future
                (ppSurplus s p event_dt) }
        else
          { ppS2 s p event_dt with
            overall_advance_balance :=
              decSub (ppS2 s p event_dt).overall_advance_balance
                (ppAfter s p event_dt) })
      else ppS1 s p event_dt := rfl

theorem ppS1_credit (s : AdvanceStats) (p event_dt : ℤ) :
    (ppS1 s p event_dt).overall_payments_for_future = s.overall_payments_for_future := rfl

theorem ppS1_balance (s : AdvanceStats) (p event_dt : ℤ) :
    (ppS1 s p event_dt).overall_advance_balance = s.overall_advance_balance := rfl

theorem ppS1_advances (s : AdvanceStats) (p event_dt : ℤ) :
    (ppS1 s p event_dt).advances = s.advances := rfl

theorem ppS2_credit (s : AdvanceStats) (p event_dt : ℤ) :
    (ppS2 s p event_dt).overall_payments_for_future = s.overall_payments_for_future := rfl

theorem ppS2_balance (s : AdvanceStats) (p event_dt : ℤ) :
    (ppS2 s p event_dt).overall_advance_balance = s.overall_advance_balance := rfl

theorem val_zero_mk : val ⟨0, 0⟩ = 0 := (val_eq_zero_iff _).2 rfl

theorem process_payment_creditInv (s : AdvanceStats) (p event_dt : ℤ)
    (h : CreditInv s) : CreditInv (process_payment s p event_dt) := by
  obtain ⟨hc, himp⟩ := h
  rw [process_payment_cases]
  split_ifs with h1 h2
  · constructor
    · apply val_decAdd_nonneg
      rw [ppS2_credit]
      have h2' := (decPos_iff_val _).1 h2
      linarith
    · intro _
      exact val_zero_mk
  · constructor
    · rw [ppS2_credit]
      exact hc
    · intro hpos
      exfalso
      rw [ppS2_credit] at hpos
      have hb0 : val s.overall_advance_balance = 0 := himp hpos
      rw [decPos_iff_val] at h1 h2
      rw [ppSurplus, val_decSub_pos_iff, ppS2_balance, hb0] at h2
      exact h2 h1
  · exact ⟨hc, himp⟩

theorem process_advance_creditInv (s : AdvanceStats) (adv : Advance)
    (h : CreditInv s) : CreditInv (process_advance s adv) := by
  obtain ⟨hc, himp⟩ := h
  unfold process_advance
  split_ifs with h1 h2
  · constructor
    · exact le_of_lt ((decPos_iff_val _).1 h2)
    · intro _
      exact val_zero_mk
  · constructor
    · exact le_of_eq val_zero_mk.symm
    · intro hpos
      rw [val_zero_mk] at hpos
      exact absurd hpos (lt_irrefl 0)
  · constructor
    · exact hc
    · intro hpos
      exfalso
      rw [decPos_iff_val] at h1
      exact h1 hpos

-- Balance nonnegativity.

theorem process_payment_balance_nonneg (s : AdvanceStats) (p event_dt : ℤ)
    (hb : 0 ≤ val s.overall_advance_balance) :
    0 ≤ val (process_payment s p event_dt).overall_advance_balance := by
  rw [process_payment_cases]
  split_ifs with h1 h2
  · rw [val_zero_mk]
  · rw [decPos_iff_val] at h2
    push_neg at h2
    rw [ppSurplus, val_decSub_nonpos_iff, ppS2_balance] at h2
    show 0 ≤ val (decSub (ppS2 s p event_dt).overall_advance_balance (ppAfter s p event_dt))
    apply val_decSub_nonneg
    rw [ppS2_balance]
    exact h2
  · rw [ppS1_balance]
    exact hb

theorem process_advance_balance_nonneg (s : AdvanceStats) (adv : Advance)
    (hb : 0 ≤ val s.overall_advance_balance)
    (hc : 0 ≤ val s.overall_payments_for_future)
    (hamt : 0 ≤ adv.initial_amount) :
    0 ≤ val (process_advance s adv).overall_advance_balance := by
  unfold process_advance
  split_ifs with h1 h2
  · rw [val_zero_mk]
  · apply val_decAdd_nonneg
    have hle : val s.overall_payments_for_future ≤ val (decOfInt adv.initial_amount) := by
      rw [decPos_iff_val] at h2
      push_neg at h2
      rw [val_decSub_nonpos_iff] at h2
      exact h2
    have := val_decSub_nonneg (decOfInt adv.initial_amount) s.overall_payments_for_future hle
    linarith
  · apply val_decAdd_nonneg
    rw [val_decOfInt]
    have : (0 : ℚ) ≤ (adv.initial_amount : ℚ) := by exact_mod_cast hamt
    linarith

theorem reduce_advances_advances (s : AdvanceStats) (amount : PyDec) (event_dt : ℤ) :
    (reduce_advances s amount event_dt).advances =
      s.advances.take s.first_not_fully_paid_advance_index ++
        (reduceLoop amount event_dt
          (s.advances.drop s.first_not_fully_paid_advance_index)).1 := rfl

theorem reduce_advances_cursor (s : AdvanceStats) (amount : PyDec) (event_dt : ℤ) :
    (reduce_advances s amount event_dt).first_not_fully_paid_advance_index =
      s.first_not_fully_paid_advance_index +
        (reduceLoop amount event_dt
          (s.advances.drop s.first_not_fully_paid_advance_index)).2 := rfl

theorem reduce_advances_cursorInv (s : AdvanceStats) (amount : PyDec) (event_dt : ℤ)
    (h : CursorInv s) : CursorInv (reduce_advances s amount event_dt) := by
  unfold CursorInv at h ⊢
  rw [reduce_advances_advances, reduce_advances_cursor]
  rw [List.length_append, List.length_take, reduceLoop_length, List.length_drop]
  have := reduceLoop_k_le amount event_dt
    (s.advances.drop s.first_not_fully_paid_advance_index)
  rw [List.length_drop] at this
  omega

theorem reduce_advances_prefixZero (s : AdvanceStats) (amount : PyDec) (event_dt : ℤ)
    (hcur : CursorInv s) (h : PrefixZero s) :
    PrefixZero (reduce_advances s amount event_dt) := by
  unfold PrefixZero at h ⊢
  rw [reduce_advances_advances, reduce_advances_cursor]
  intro a ha
  have hlen : (s.advances.take s.first_not_fully_paid_advance_index).length =
      s.first_not_fully_paid_advance_index := by
    rw [List.length_take]
    exact min_eq_left hcur
  rw [show s.first_not_fully_paid_advance_index +
        (reduceLoop amount event_dt (s.advances.drop s.first_not_fully_paid_advance_index)).2 =
      (s.advances.take s.first_not_fully_paid_advance_index).length +
        (reduceLoop amount event_dt (s.advances.drop s.first_not_fully_paid_advance_index)).2
      from by rw [hlen], List.take_append] at ha
  rcases List.mem_append.mp ha with h1 | h1
  · exact h a h1
  · exact reduceLoop_zeroed_front amount event_dt _ a h1

theorem process_payment_cursorInv (s : AdvanceStats) (p event_dt : ℤ)
    (h : CursorInv s) : CursorInv (process_payment s p event_dt) := by
  rw [process_payment_cases]
  split_ifs with h1 h2
  · exact reduce_advances_cursorInv _ _ _ h
  · exact reduce_advances_cursorInv _ _ _ h
  · exact h

theorem process_payment_prefixZero (s : AdvanceStats) (p event_dt : ℤ)
    (hcur : CursorInv s) (h : PrefixZero s) : PrefixZero (process_payment s p event_dt) := by
  rw [process_payment_cases]
  split_ifs with h1 h2
  · exact reduce_advances_prefixZero _ _ _ hcur h
  · exact reduce_advances_prefixZero _ _ _ hcur h
  · exact h

theorem process_advance_advances (s : AdvanceStats) (adv : Advance) :
    ∃ x, (process_advance s adv).advances = s.advances ++ [x] ∧
      (process_advance s adv).first_not_fully_paid_advance_index =
        s.first_not_fully_paid_advance_index := by
  unfold process_advance
  split_ifs with h1 h2
  · exact ⟨_, rfl, rfl⟩
  · exact ⟨_, rfl, rfl⟩
  · exact ⟨_, rfl, rfl⟩

theorem process_advance_cursorInv (s : AdvanceStats) (adv : Advance)
    (h : CursorInv s) : CursorInv (process_advance s adv) := by
  obtain ⟨x, hadv, hcur⟩ := process_advance_advances s adv
  unfold CursorInv at h ⊢
  rw [hadv, hcur, List.length_append]
  omega

theorem process_advance_prefixZero (s : AdvanceStats) (adv : Advance)
    (hcur : CursorInv s) (h : PrefixZero s) : PrefixZero (process_advance s adv) := by
  obtain ⟨x, hadv, hcur'⟩ := process_advance_advances s adv
  unfold PrefixZero at h ⊢
  rw [hadv, hcur']
  intro a ha
  rw [List.take_append_of_le_length hcur] at ha
  exact h a ha

-- Per-advance range invariant at the state level.

theorem reduce_advances_advOk (s : AdvanceStats) (amount : PyDec) (event_dt : ℤ)
    (hl : ∀ a ∈ s.advances, AdvOk a) :
    ∀ a ∈ (reduce_advances s amount event_dt).advances, AdvOk a := by
  intro a ha
  rw [reduce_advances_advances] at ha
  rcases List.mem_append.mp ha with h1 | h1
  · exact hl a (List.take_subset _ _ h1)
  · exact reduceLoop_advOk amount event_dt _
      (fun x hx => hl x (List.drop_subset _ _ hx)) a h1

theorem process_payment_advOk (s : AdvanceStats) (p event_dt : ℤ)
    (hl : ∀ a ∈ s.advances, AdvOk a) :
    ∀ a ∈ (process_payment s p event_dt).advances, AdvOk a := by
  rw [process_payment_cases]
  split_ifs with h1 h2
  · intro a ha
    exact reduce_advances_advOk (ppS1 s p event_dt) _ _ (by rw [ppS1_advances]; exact hl) a ha
  · intro a ha
    exact reduce_advances_advOk (ppS1 s p event_dt) _ _ (by rw [ppS1_advances]; exact hl) a ha
  · intro a ha
    rw [ppS1_advances] at ha
    exact hl a ha

theorem process_advance_advOk (s : AdvanceStats) (adv : Advance)
    (hc : 0 ≤ val s.overall_payments_for_future)
    (hl : ∀ a ∈ s.advances, AdvOk a)
    (hamt : 0 ≤ adv.initial_amount) (hamt2 : adv.initial_amount < 10 ^ PREC) :
    ∀ a ∈ (process_advance s adv).advances, AdvOk a := by
  unfold process_advance
  split_ifs with h1 h2 <;> intro a ha <;>
    rcases List.mem_append.mp ha with h' | h'
  · exact hl a h'
  · rw [List.mem_singleton] at h'
    subst h'
    refine ⟨le_of_eq val_zero_mk.symm, ?_, hamt, hamt2⟩
    rw [val_zero_mk]
    exact_mod_cast hamt
  · exact hl a h'
  · rw [List.mem_singleton] at h'
    subst h'
    have hle : val s.overall_payments_for_future ≤ val (decOfInt adv.initial_amount) := by
      rw [decPos_iff_val] at h2
      push_neg at h2
      rw [val_decSub_nonpos_iff] at h2
      exact h2
    refine ⟨val_decSub_nonneg _ _ hle, ?_, hamt, hamt2⟩
    apply val_decSub_le_int _ _ _ hle hamt2
    rw [val_decOfInt]
    linarith
  · exact hl a h'
  · rw [List.mem_singleton] at h'
    subst h'
    refine ⟨?_, ?_, hamt, hamt2⟩
    · rw [val_decOfInt]
      exact_mod_cast hamt
    · rw [val_decOfInt]

-- Event-level preservation.

theorem process_event_parse_ok (s : AdvanceStats) (e : Event) (end_dt event_dt : ℤ)
    (hp : strptimeYMD e.date = .ok event_dt) :
    process_event s e end_dt =
      if end_dt < event_dt then .ok s else .ok (dispatch_event s e event_dt) := by
  unfold process_event
  rw [hp]

theorem process_event_parse_error (s : AdvanceStats) (e : Event) (end_dt : ℤ)
    (msg : String) (hp : strptimeYMD e.date = .error msg) :
    process_event s e end_dt = .error msg := by
  unfold process_event
  rw [hp]

theorem process_event_ok_cases (s : AdvanceStats) (e : Event) (end_dt : ℤ)
    (s' : AdvanceStats) (h : process_event s e end_dt = .ok s') :
    s' = s ∨ ∃ event_dt, strptimeYMD e.date = .ok event_dt ∧ ¬ end_dt < event_dt ∧
      s' = dispatch_event s e event_dt := by
  cases hparse : strptimeYMD e.date with
  | error msg =>
    rw [process_event_parse_error s e end_dt msg hparse] at h
    exact absurd h (by simp)
  | ok event_dt =>
    rw [process_event_parse_ok s e end_dt event_dt hparse] at h
    by_cases hlt : end_dt < event_dt
    · rw [if_pos hlt] at h
      left
      exact (Except.ok.inj h).symm
    · rw [if_neg hlt] at h
      right
      exact ⟨event_dt, rfl, hlt, (Except.ok.inj h).symm⟩

theorem dispatch_event_cases (s : AdvanceStats) (e : Event) (event_dt : ℤ) :
    dispatch_event s e event_dt = s ∨
      dispatch_event s e event_dt = process_advance s (mkAdvanceRecord e event_dt) ∨
      dispatch_event s e event_dt = process_payment s e.amount event_dt := by
  unfold dispatch_event
  split_ifs with h1 h2
  · right; left; rfl
  · right; right; rfl
  · left; rfl

theorem dispatch_event_advance (s : AdvanceStats) (e : Event) (event_dt : ℤ)
    (h : e.type = "advance") :
    dispatch_event s e event_dt = process_advance s (mkAdvanceRecord e event_dt) := by
  unfold dispatch_event
  rw [if_pos h]

theorem process_events_cons_ok (end_dt : ℤ) (s : AdvanceStats) (e : Event)
    (rest : List Event) (s1 : AdvanceStats) (h : process_event s e end_dt = .ok s1) :
    process_events end_dt s (e :: rest) = process_events end_dt s1 rest := by
  conv_lhs => rw [process_events]
  rw [h]

theorem process_events_cons_error (end_dt : ℤ) (s : AdvanceStats) (e : Event)
    (rest : List Event) (msg : String) (h : process_event s e end_dt = .error msg) :
    process_events end_dt s (e :: rest) = .error msg := by
  conv_lhs => rw [process_events]
  rw [h]

theorem process_event_creditInv (s : AdvanceStats) (e : Event) (end_dt : ℤ)
    (s' : AdvanceStats) (h : process_event s e end_dt = .ok s')
    (hs : CreditInv s) : CreditInv s' := by
  rcases process_event_ok_cases s e end_dt s' h with rfl | ⟨d, -, -, rfl⟩
  · exact hs
  · rcases dispatch_event_cases s e d with he | he | he <;> rw [he]
    · exact hs
    · exact process_advance_creditInv _ _ hs
    · exact process_payment_creditInv _ _ _ hs

theorem process_events_creditInv (end_dt : ℤ) :
    ∀ (evs : List Event) (s s' : AdvanceStats),
      process_events end_dt s evs = .ok s' → CreditInv s → CreditInv s' := by
  intro evs
  induction evs with
  | nil =>
    intro s s' h hs
    exact (Except.ok.inj h) ▸ hs
  | cons e rest ih =>
    intro s s' h hs
    cases hpe : process_event s e end_dt with
    | error msg =>
      rw [process_events_cons_error end_dt s e rest msg hpe] at h
      exact absurd h (by simp)
    | ok s1 =>
      rw [process_events_cons_ok end_dt s e rest s1 hpe] at h
      exact ih s1 s' h (process_event_creditInv s e end_dt s1 hpe hs)

theorem process_event_balInv (s : AdvanceStats) (e : Event) (end_dt : ℤ)
    (s' : AdvanceStats) (h : process_event s e end_dt = .ok s')
    (hs : BalInvariants s) (hamt : e.type = "advance" → 0 ≤ e.amount) :
    BalInvariants s' := by
  obtain ⟨hcred, hbal, hcur, hpz⟩ := hs
  rcases process_event_ok_cases s e end_dt s' h with rfl | ⟨d, -, -, rfl⟩
  · exact ⟨hcred, hbal, hcur, hpz⟩
  · unfold dispatch_event
    split_ifs with h1 h2
    · obtain ⟨x, hadv, hc'⟩ := process_advance_advances s (mkAdvanceRecord e d)
      exact ⟨process_advance_creditInv _ _ hcred,
        process_advance_balance_nonneg _ _ hbal hcred.1 (hamt h1),
        process_advance_cursorInv _ _ hcur,
        process_advance_prefixZero _ _ hcur hpz⟩
    · exact ⟨process_payment_creditInv _ _ _ hcred,
        process_payment_balance_nonneg _ _ _ hbal,
        process_payment_cursorInv _ _ _ hcur,
        process_payment_prefixZero _ _ _ hcur hpz⟩
    · exact ⟨hcred, hbal, hcur, hpz⟩

theorem process_events_balInv (end_dt : ℤ) :
    ∀ (evs : List Event) (s s' : AdvanceStats),
      process_events end_dt s evs = .ok s' →
      (∀ e ∈ evs, e.type = "advance" → 0 ≤ e.amount) →
      BalInvariants s → BalInvariants s' := by
  intro evs
  induction evs with
  | nil =>
    intro s s' h _ hs
    exact (Except.ok.inj h) ▸ hs
  | cons e rest ih =>
    intro s s' h hamt hs
    cases hpe : process_event s e end_dt with
    | error msg =>
      rw [process_events_cons_error end_dt s e rest msg hpe] at h
      exact absurd h (by simp)
    | ok s1 =>
      rw [process_events_cons_ok end_dt s e rest s1 hpe] at h
      exact ih s1 s' h (fun x hx => hamt x (List.mem_cons_of_mem _ hx))
        (process_event_balInv s e end_dt s1 hpe hs
          (hamt e (List.mem_cons_self e rest)))

theorem process_event_rangeInv (s : AdvanceStats) (e : Event) (end_dt : ℤ)
    (s' : AdvanceStats) (h : process_event s e end_dt = .ok s')
    (hs : RangeInvariants s)
    (hamt : e.type = "advance" → 0 ≤ e.amount ∧ e.amount < 10 ^ PREC) :
    RangeInvariants s' := by
  obtain ⟨hcred, hl⟩ := hs
  rcases process_event_ok_cases s e end_dt s' h with rfl | ⟨d, -, -, rfl⟩
  · exact ⟨hcred, hl⟩
  · unfold dispatch_event
    split_ifs with h1 h2
    · exact ⟨process_advance_creditInv _ _ hcred,
        process_advance_advOk _ _ hcred.1 hl (hamt h1).1 (hamt h1).2⟩
    · exact ⟨process_payment_creditInv _ _ _ hcred,
        process_payment_advOk _ _ _ hl⟩
    · exact ⟨hcred, hl⟩

theorem process_events_rangeInv (end_dt : ℤ) :
    ∀ (evs : List Event) (s s' : AdvanceStats),
      process_events end_dt s evs = .ok s' →
      (∀ e ∈ evs, e.type = "advance" → 0 ≤ e.amount ∧ e.amount < 10 ^ PREC) →
      RangeInvariants s → RangeInvariants s' := by
  intro evs
  induction evs with
  | nil =>
    intro s s' h _ hs
    exact (Except.ok.inj h) ▸ hs
  | cons e rest ih =>
    intro s s' h hamt hs
    cases hpe : process_event s e end_dt with
    | error msg =>
      rw [process_events_cons_error end_dt s e rest msg hpe] at h
      exact absurd h (by simp)
    | ok s1 =>
      rw [process_events_cons_ok end_dt s e rest s1 hpe] at h
      exact ih s1 s' h (fun x hx => hamt x (List.mem_cons_of_mem _ hx))
        (process_event_rangeInv s e end_dt s1 hpe hs
          (hamt e (List.mem_cons_self e rest)))

theorem initStats_balInv : BalInvariants initStats := by
  refine ⟨⟨le_of_eq val_zero_mk.symm, ?_⟩, le_of_eq val_zero_mk.symm, ?_, ?_⟩
  · intro h
    exfalso
    rw [show initStats.overall_payments_for_future = (⟨0, 0⟩ : PyDec) from rfl,
      val_zero_mk] at h
    exact absurd h (lt_irrefl 0)
  · exact Nat.le_refl 0
  · intro a ha
    simp [initStats] at ha

theorem initStats_rangeInv : RangeInvariants initStats := by
  refine ⟨initStats_balInv.1, ?_⟩
  intro a ha
  simp [initStats] at ha

-- Remaining helpers for the claim statements.

theorem val_int_mk (m : ℤ) : val ⟨m, 0⟩ = (m : ℚ) := val_decOfInt m

theorem val_neg_exp (m : ℤ) (k : ℕ) : val ⟨m, -(k : ℤ)⟩ = (m : ℚ) / 10 ^ k := by
  unfold val
  rw [zpow_neg, zpow_natCast, div_eq_mul_inv]

theorem val_nat_exp (m : ℤ) (k : ℕ) : val ⟨m, (k : ℤ)⟩ = (m : ℚ) * 10 ^ k := by
  unfold val
  rw [zpow_natCast]

theorem get_overall_interest_call_snd (s : AdvanceStats) (end_dt : ℤ) :
    (get_overall_interest_call s end_dt).2 = s := by
  show { s with advances := s.advances.take s.first_not_fully_paid_advance_index ++
    (interestLoop end_dt ⟨0, 0⟩
      (s.advances.drop s.first_not_fully_paid_advance_index)).2 } = s
  rw [interestLoop_snd, List.take_append_drop]

theorem get_overall_interest_call_fst (s : AdvanceStats) (end_dt : ℤ) :
    (get_overall_interest_call s end_dt).1 = get_overall_interest s end_dt := rfl

theorem dateOrdered_pair (e1 e2 : Event) (d1 d2 : ℤ)
    (h1 : strptimeYMD e1.date = .ok d1) (h2 : strptimeYMD e2.date = .ok d2)
    (h : d1 ≤ d2) :
    ∀ x y, strptimeYMD e1.date = .ok x → strptimeYMD e2.date = .ok y → x ≤ y := by
  intro x y hx hy
  rw [h1] at hx
  rw [h2] at hy
  have hx' := Except.ok.inj hx
  have hy' := Except.ok.inj hy
  omega

theorem strptime_day0 : strptimeYMD ("2022-01-01") = .ok day0 := rfl

theorem strptime_day10 : strptimeYMD ("2022-01-11") = .ok day10 := rfl

theorem run_scenarioA (c : ℤ) (hc : day10 ≤ c) :
    process_events c initStats [evA, evP] = .ok stScenarioA := by
  have h1 : process_event initStats evA c = .ok stA := by
    rw [process_event_parse_ok initStats evA c day0 strptime_day0,
      if_neg (by unfold day0 day10 at *; omega)]
    rfl
  have h2 : process_event stA evP c = .ok stScenarioA := by
    rw [process_event_parse_ok stA evP c day10 strptime_day10, if_neg (by omega)]
    rfl
  rw [process_events_cons_ok c initStats evA [evP] stA h1,
    process_events_cons_ok c stA evP [] stScenarioA h2]
  rfl

theorem run_cx2_take3 :
    process_events day10 initStats (cx2evs.take 3) = .ok stC2a := by
  have h0 := run_scenarioA day10 le_rfl
  have h3 : process_event stScenarioA evA2 day10 = .ok stC2a := by
    rw [process_event_parse_ok stScenarioA evA2 day10 day10 strptime_day10,
      if_neg (by omega)]
    rfl
  show process_events day10 initStats [evA, evP, evA2] = .ok stC2a
  have h1 : process_event initStats evA day10 = .ok stA := by
    rw [process_event_parse_ok initStats evA day10 day0 strptime_day0,
      if_neg (by unfold day0 day10; omega)]
    rfl
  have h2 : process_event stA evP day10 = .ok stScenarioA := by
    rw [process_event_parse_ok stA evP day10 day10 strptime_day10, if_neg (by omega)]
    rfl
  rw [process_events_cons_ok day10 initStats evA [evP, evA2] stA h1,
    process_events_cons_ok day10 stA evP [evA2] stScenarioA h2,
    process_events_cons_ok day10 stScenarioA evA2 [] stC2a h3]
  rfl

theorem run_cx2_all :
    process_events day10 initStats cx2evs = .ok stC2b := by
  have h1 : process_event initStats evA day10 = .ok stA := by
    rw [process_event_parse_ok initStats evA day10 day0 strptime_day0,
      if_neg (by unfold day0 day10; omega)]
    rfl
  have h2 : process_event stA evP day10 = .ok stScenarioA := by
    rw [process_event_parse_ok stA evP day10 day10 strptime_day10, if_neg (by omega)]
    rfl
  have h3 : process_event stScenarioA evA2 day10 = .ok stC2a := by
    rw [process_event_parse_ok stScenarioA evA2 day10 day10 strptime_day10,
      if_neg (by omega)]
    rfl
  have h4 : process_event stC2a evNeg day10 = .ok stC2b := by
    rw [process_event_parse_ok stC2a evNeg day10 day10 strptime_day10,
      if_neg (by omega)]
    rfl
  show process_events day10 initStats [evA, evP, evA2, evNeg] = .ok stC2b
  rw [process_events_cons_ok day10 initStats evA [evP, evA2, evNeg] stA h1,
    process_events_cons_ok day10 stA evP [evA2, evNeg] stScenarioA h2,
    process_events_cons_ok day10 stScenarioA evA2 [evNeg] stC2a h3,
    process_events_cons_ok day10 stC2a evNeg [] stC2b h4]
  rfl

theorem run_neg5 : process_events day10 initStats [evNeg5] = .ok stNeg5 := by
  have h1 : process_event initStats evNeg5 day10 = .ok stNeg5 := by
    rw [process_event_parse_ok initStats evNeg5 day10 day0 strptime_day0,
      if_neg (by unfold day0 day10; omega)]
    rfl
  rw [process_events_cons_ok day10 initStats evNeg5 [] stNeg5 h1]
  rfl

theorem run_cx6 : process_events day10 initStats cx6evs = .ok stC6 := by
  have h1 : process_event initStats evA day10 = .ok stA := by
    rw [process_event_parse_ok initStats evA day10 day0 strptime_day0,
      if_neg (by unfold day0 day10; omega)]
    rfl
  have h2 : process_event stA evP1007 day10 = .ok stP1007 := by
    rw [process_event_parse_ok stA evP1007 day10 day10 strptime_day10,
      if_neg (by omega)]
    rfl
  have h3 : process_event stP1007 evBig day10 = .ok stC6 := by
    rw [process_event_parse_ok stP1007 evBig day10 day10 strptime_day10,
      if_neg (by omega)]
    rfl
  show process_events day10 initStats [evA, evP1007, evBig] = .ok stC6
  rw [process_events_cons_ok day10 initStats evA [evP1007, evBig] stA h1,
    process_events_cons_ok day10 stA evP1007 [evBig] stP1007 h2,
    process_events_cons_ok day10 stP1007 evBig [] stC6 h3]
  rfl

theorem run_huge : process_events day10 initStats [evA, evPHuge] = .ok stHuge := by
  have h1 : process_event initStats evA day10 = .ok stA := by
    rw [process_event_parse_ok initStats evA day10 day0 strptime_day0,
      if_neg (by unfold day0 day10; omega)]
    rfl
  have h2 : process_event stA evPHuge day10 = .ok stHuge := by
    rw [process_event_parse_ok stA evPHuge day10 day10 strptime_day10,
      if_neg (by omega)]
    rfl
  rw [process_events_cons_ok day10 initStats evA [evPHuge] stA h1,
    process_events_cons_ok day10 stA evPHuge [] stHuge h2]
  rfl

theorem run_cx10 : process_events day10 initStats cx10evs = .ok stC10 := by
  have hA : process_event initStats evH1 day10 =
      .ok ⟨⟨100, 0⟩, ⟨0, 0⟩, ⟨0, 0⟩, ⟨0, 0⟩,
        [⟨1, "advance", 100, "2022-01-01", ⟨100, 0⟩, 738156⟩], 0⟩ := by
    rw [process_event_parse_ok initStats evH1 day10 day0 strptime_day0,
      if_neg (by unfold day0 day10; omega)]
    rfl
  have hB : process_event
      (⟨⟨100, 0⟩, ⟨0, 0⟩, ⟨0, 0⟩, ⟨0, 0⟩,
        [⟨1, "advance", 100, "2022-01-01", ⟨100, 0⟩, 738156⟩], 0⟩ : AdvanceStats)
      evH2 day10 =
      .ok ⟨⟨0, 0⟩, ⟨0, 0⟩, ⟨0, 0⟩, ⟨0, 0⟩,
        [⟨1, "advance", 100, "2022-01-01", ⟨100, 0⟩, 738156⟩,
          ⟨2, "advance", -100, "2022-01-01", ⟨-100, 0⟩, 738156⟩], 0⟩ := by
    rw [process_event_parse_ok _ evH2 day10 day0 strptime_day0,
      if_neg (by unfold day0 day10; omega)]
    rfl
  have hC : process_event
      (⟨⟨0, 0⟩, ⟨0, 0⟩, ⟨0, 0⟩, ⟨0, 0⟩,
        [⟨1, "advance", 100, "2022-01-01", ⟨100, 0⟩, 738156⟩,
          ⟨2, "advance", -100, "2022-01-01", ⟨-100, 0⟩, 738156⟩], 0⟩ : AdvanceStats)
      evH3 day10 = .ok stC10 := by
    rw [process_event_parse_ok _ evH3 day10 day10 strptime_day10,
      if_neg (by omega)]
    rfl
  show process_events day10 initStats [evH1, evH2, evH3] = .ok stC10
  rw [process_events_cons_ok day10 initStats evH1 [evH2, evH3] _ hA,
    process_events_cons_ok day10 _ evH2 [evH3] _ hB,
    process_events_cons_ok day10 _ evH3 [] stC10 hC]
  rfl

-- Date-order certificates for the concrete runs.

theorem dateOrdered_scenarioA : DateOrdered [evA, evP] := by
  unfold DateOrdered
  refine List.chain'_cons.mpr ⟨?_, List.chain'_singleton _⟩
  exact dateOrdered_pair evA evP day0 day10 strptime_day0 strptime_day10
    (by unfold day0 day10; omega)

theorem dateOrdered_cx2 : DateOrdered cx2evs := by
  unfold DateOrdered cx2evs
  refine List.chain'_cons.mpr ⟨?_, List.chain'_cons.mpr ⟨?_, List.chain'_cons.mpr
    ⟨?_, List.chain'_singleton _⟩⟩⟩
  · exact dateOrdered_pair evA evP day0 day10 strptime_day0 strptime_day10
      (by unfold day0 day10; omega)
  · exact dateOrdered_pair evP evA2 day10 day10 strptime_day10 strptime_day10 le_rfl
  · exact dateOrdered_pair evA2 evNeg day10 day10 strptime_day10 strptime_day10 le_rfl

theorem dateOrdered_neg5 : DateOrdered [evNeg5] := List.chain'_singleton _

theorem dateOrdered_cx6 : DateOrdered cx6evs := by
  unfold DateOrdered cx6evs
  refine List.chain'_cons.mpr ⟨?_, List.chain'_cons.mpr ⟨?_, List.chain'_singleton _⟩⟩
  · exact dateOrdered_pair evA evP1007 day0 day10 strptime_day0 strptime_day10
      (by unfold day0 day10; omega)
  · exact dateOrdered_pair evP1007 evBig day10 day10 strptime_day10 strptime_day10 le_rfl

theorem dateOrdered_huge : DateOrdered [evA, evPHuge] := by
  unfold DateOrdered
  refine List.chain'_cons.mpr ⟨?_, List.chain'_singleton _⟩
  exact dateOrdered_pair evA evPHuge day0 day10 strptime_day0 strptime_day10
    (by unfold day0 day10; omega)

theorem dateOrdered_cx10 : DateOrdered cx10evs := by
  unfold DateOrdered cx10evs
  refine List.chain'_cons.mpr ⟨?_, List.chain'_cons.mpr ⟨?_, List.chain'_singleton _⟩⟩
  · exact dateOrdered_pair evH1 evH2 day0 day0 strptime_day0 strptime_day0 le_rfl
  · exact dateOrdered_pair evH2 evH3 day0 day10 strptime_day0 strptime_day10
      (by unfold day0 day10; omega)

/-- Claim C4 (code bug): the daily-rate constant is `Decimal(0.00035)`
built from a binary float, so its exact value is `6456360425798343 / 2^64`
= `0.00034999999999999999644381687424…`, not the decimal `7/20000`; the
mandated exact-decimal representation of `0.00035` is violated at the
constant itself. -/
theorem claim_C4_rate_not_exact_decimal :
    val ADVANCE_INTEREST_RATE = 6456360425798343 / 2 ^ 64 ∧
      val ADVANCE_INTEREST_RATE ≠ 7 / 20000 := by
  have hval : val ADVANCE_INTEREST_RATE = 6456360425798343 / 2 ^ 64 := by
    show val ⟨6456360425798343 * 5 ^ 64, -64⟩ = _
    rw [show (-64 : ℤ) = -((64 : ℕ) : ℤ) by norm_num, val_neg_exp]
    rw [div_eq_div_iff (by positivity) (by positivity)]
    push_cast
    rw [show ((10 : ℚ)) ^ (64 : ℕ) = 2 ^ 64 * 5 ^ 64 by norm_num]
    ring
  refine ⟨hval, ?_⟩
  rw [hval]
  norm_num

/-- Claim C7: `get_overall_interest` is read-only — as a call on the
engine state it returns the accrued interest and leaves the state (every
advance's fields, the cursor, all four totals) exactly as it was. -/
theorem claim_C7_interest_readonly (s : AdvanceStats) (end_dt : ℤ) :
    (get_overall_interest_call s end_dt).2 = s ∧
      (get_overall_interest_call s end_dt).1 = get_overall_interest s end_dt :=
  ⟨get_overall_interest_call_snd s end_dt, get_overall_interest_call_fst s end_dt⟩

/-- Claim C8: an event dated exactly on the cutoff is processed normally
(routed by kind), while an event dated strictly after the cutoff is
dropped with the state returned unchanged. -/
theorem claim_C8_cutoff_boundary (s : AdvanceStats) (e : Event) (end_dt event_dt : ℤ)
    (hp : strptimeYMD e.date = .ok event_dt) :
    (event_dt = end_dt → process_event s e end_dt = .ok (dispatch_event s e event_dt)) ∧
      (end_dt < event_dt → process_event s e end_dt = .ok s) := by
  constructor
  · intro heq
    rw [process_event_parse_ok s e end_dt event_dt hp, if_neg (by omega)]
  · intro hlt
    rw [process_event_parse_ok s e end_dt event_dt hp, if_pos hlt]

theorem claim_C8_witness :
    (day0 = day0 →
      process_event initStats evA day0 = .ok (dispatch_event initStats evA day0)) ∧
    (day0 - 1 < day0 → process_event initStats evA (day0 - 1) = .ok initStats) :=
  ⟨(claim_C8_cutoff_boundary initStats evA day0 day0 strptime_day0).1,
    (claim_C8_cutoff_boundary initStats evA (day0 - 1) day0 strptime_day0).2⟩

/-- Claim C9 (counterexample): `"2022-1-1"` is not in the exact
zero-padded `YYYY-MM-DD` shape, yet `strptime`'s lenient `%Y-%m-%d`
pattern accepts it and the event is processed without any error. -/
theorem claim_C9_counterexample :
    isStrictYMD ("2022-1-1") = false ∧
      process_event initStats ⟨1, "advance", 50, "2022-1-1"⟩ day10 =
        .ok (dispatch_event initStats ⟨1, "advance", 50, "2022-1-1"⟩ day0) := by
  constructor
  · rfl
  · rw [process_event_parse_ok _ _ _ day0 (by rfl), if_neg (by unfold day0 day10; omega)]

/-- Claim C9 (amended): for every event whose date string the lenient
`%Y-%m-%d` parse rejects, `process_event` propagates the parse error and
produces no state at all (no partial processing). -/
theorem claim_C9_amended (s : AdvanceStats) (e : Event) (end_dt : ℤ) (msg : String)
    (hp : strptimeYMD e.date = .error msg) :
    process_event s e end_dt = .error msg :=
  process_event_parse_error s e end_dt msg hp

theorem claim_C9_witness :
    process_event initStats ⟨9, "payment", 5, "bad-date"⟩ day10 =
      .error ("ValueError: no match") :=
  claim_C9_amended initStats ⟨9, "payment", 5, "bad-date"⟩ day10
    ("ValueError: no match") (by rfl)

/-- Claim C1 (counterexample): on Scenario A with cutoff day 10, none of
"interest payable = 3.5 exactly", "interest paid = 3.5 exactly",
"current_amount = 0", "outstanding = 3.5 exactly" holds: the rate constant
is float-contaminated and the remaining 996.50000000000000003556…
only partially reduces the advance. -/
theorem claim_C1_counterexample :
    process_events day10 initStats [evA, evP] = .ok stScenarioA ∧
      ¬ (val stScenarioA.overall_interest_payable_balance = 7 / 2 ∧
        val stScenarioA.overall_interest_paid = 7 / 2 ∧
        val advA1.current_amount = 0 ∧
        val stScenarioA.overall_payments_for_future = 0 ∧
        val stScenarioA.overall_advance_balance = 7 / 2) := by
  refine ⟨run_scenarioA day10 le_rfl, ?_⟩
  rintro ⟨hp, -, -, -, -⟩
  rw [show stScenarioA.overall_interest_payable_balance =
      (⟨3499999999999999964438168742, -27⟩ : PyDec) from rfl] at hp
  rw [show ((-27 : ℤ)) = -((27 : ℕ) : ℤ) by norm_num, val_neg_exp] at hp
  norm_num at hp

/-- Claim C1 (amended): for every cutoff on or after day 10, processing
Scenario A yields: interest payable recomputed at the payment event and
interest paid both equal to `3.499999999999999964438168742` exactly (the
context-rounded product of 10000 and the float-contaminated rate); the
remainder leaves the advance with `current_amount =
3.4999999999999999644381687` (not zero); `future_payment_credit` stays 0;
and `outstanding_advance_total` equals the same partially-reduced
remainder. -/
theorem claim_C1_amended (c : ℤ) (hc : day10 ≤ c) :
    process_events c initStats [evA, evP] = .ok stScenarioA ∧
      val stScenarioA.overall_interest_payable_balance =
        3499999999999999964438168742 / 10 ^ 27 ∧
      val stScenarioA.overall_interest_paid =
        3499999999999999964438168742 / 10 ^ 27 ∧
      val advA1.current_amount = 34999999999999999644381687 / 10 ^ 25 ∧
      val advA1.current_amount ≠ 0 ∧
      val stScenarioA.overall_payments_for_future = 0 ∧
      val stScenarioA.overall_advance_balance = 34999999999999999644381687 / 10 ^ 25 := by
  refine ⟨run_scenarioA c hc, ?_, ?_, ?_, ?_, ?_, ?_⟩
  · rw [show stScenarioA.overall_interest_payable_balance =
        (⟨3499999999999999964438168742, -27⟩ : PyDec) from rfl]
    rw [show ((-27 : ℤ)) = -((27 : ℕ) : ℤ) by norm_num, val_neg_exp]
    norm_num
  · rw [show stScenarioA.overall_interest_paid =
        (⟨3499999999999999964438168742, -27⟩ : PyDec) from rfl]
    rw [show ((-27 : ℤ)) = -((27 : ℕ) : ℤ) by norm_num, val_neg_exp]
    norm_num
  · rw [show advA1.current_amount =
        (⟨34999999999999999644381687, -25⟩ : PyDec) from rfl]
    rw [show ((-25 : ℤ)) = -((25 : ℕ) : ℤ) by norm_num, val_neg_exp]
    norm_num
  · rw [show advA1.current_amount =
        (⟨34999999999999999644381687, -25⟩ : PyDec) from rfl]
    rw [show ((-25 : ℤ)) = -((25 : ℕ) : ℤ) by norm_num, val_neg_exp]
    norm_num
  · exact val_zero_mk
  · rw [show stScenarioA.overall_advance_balance =
        (⟨34999999999999999644381687, -25⟩ : PyDec) from rfl]
    rw [show ((-25 : ℤ)) = -((25 : ℕ) : ℤ) by norm_num, val_neg_exp]
    norm_num

theorem claim_C1_witness :
    process_events (day10 + 3) initStats [evA, evP] = .ok stScenarioA ∧
      val stScenarioA.overall_interest_payable_balance =
        3499999999999999964438168742 / 10 ^ 27 ∧
      val stScenarioA.overall_interest_paid =
        3499999999999999964438168742 / 10 ^ 27 ∧
      val advA1.current_amount = 34999999999999999644381687 / 10 ^ 25 ∧
      val advA1.current_amount ≠ 0 ∧
      val stScenarioA.overall_payments_for_future = 0 ∧
      val stScenarioA.overall_advance_balance = 34999999999999999644381687 / 10 ^ 25 :=
  claim_C1_amended (day10 + 3) (by omega)

/-- Claim C2 (counterexample): after the third event of `cx2evs` (all
amounts still nonnegative) the aggregate `overall_advance_balance` was
context-rounded to 28 significant digits and differs from the exact sum
of `current_amount` over `advances[first_not_fully_paid_advance_index:]`;
after the fourth event (an advance of -2000, which nothing validates) the
aggregate is negative. -/
theorem claim_C2_counterexample :
    DateOrdered cx2evs ∧
      process_events day10 initStats (cx2evs.take 3) = .ok stC2a ∧
      val stC2a.overall_advance_balance ≠
        ((stC2a.advances.drop stC2a.first_not_fully_paid_advance_index).map
          (fun a => val a.current_amount)).sum ∧
      process_events day10 initStats cx2evs = .ok stC2b ∧
      val stC2b.overall_advance_balance < 0 := by
  refine ⟨dateOrdered_cx2, run_cx2_take3, ?_, run_cx2_all, ?_⟩
  · rw [show stC2a.overall_advance_balance =
        (⟨1003499999999999999964438169, -24⟩ : PyDec) from rfl]
    rw [show stC2a.advances.drop stC2a.first_not_fully_paid_advance_index =
        [advA1, advA2] from rfl]
    simp only [List.map_cons, List.map_nil, List.sum_cons, List.sum_nil]
    rw [show advA1.current_amount = (⟨34999999999999999644381687, -25⟩ : PyDec) from rfl,
      show advA2.current_amount = (⟨1000, 0⟩ : PyDec) from rfl, val_int_mk]
    rw [show ((-24 : ℤ)) = -((24 : ℕ) : ℤ) by norm_num,
      show ((-25 : ℤ)) = -((25 : ℕ) : ℤ) by norm_num, val_neg_exp, val_neg_exp]
    norm_num
  · rw [show stC2b.overall_advance_balance =
        (⟨-996500000000000000035561831, -24⟩ : PyDec) from rfl]
    rw [show ((-24 : ℤ)) = -((24 : ℕ) : ℤ) by norm_num, val_neg_exp]
    norm_num

/-- Claim C2 (amended): for a date-ordered event sequence whose advance
amounts are nonnegative, after each event `overall_advance_balance ≥ 0`
and every advance at an index before
`first_not_fully_paid_advance_index` has `current_amount` exactly 0.
(The clause equating the aggregate to the sum of the per-advance amounts
is dropped: 28-digit context rounding desynchronizes them.) -/
theorem claim_C2_amended (evs : List Event) (end_dt : ℤ) (n : ℕ) (s' : AdvanceStats)
    (hord : DateOrdered evs)
    (hamt : ∀ e ∈ evs, e.type = "advance" → 0 ≤ e.amount)
    (hrun : process_events end_dt initStats (evs.take n) = .ok s') :
    0 ≤ val s'.overall_advance_balance ∧
      ∀ i (hi : i < s'.advances.length), i < s'.first_not_fully_paid_advance_index →
        val (s'.advances.get ⟨i, hi⟩).current_amount = 0 := by
  obtain ⟨-, hbal, hcur, hpz⟩ := process_events_balInv end_dt (evs.take n) initStats s'
    hrun (fun e he h => hamt e (List.take_subset n evs he) h) initStats_balInv
  refine ⟨hbal, ?_⟩
  intro i hi hlt
  rw [List.get_eq_getElem]
  have htk : i < (s'.advances.take s'.first_not_fully_paid_advance_index).length := by
    rw [List.length_take]
    omega
  have hmem : (s'.advances.take s'.first_not_fully_paid_advance_index)[i] ∈
      s'.advances.take s'.first_not_fully_paid_advance_index := List.getElem_mem htk
  rw [List.getElem_take] at hmem
  exact hpz _ hmem

theorem claim_C2_witness :
    0 ≤ val stScenarioA.overall_advance_balance ∧
      ∀ i (hi : i < stScenarioA.advances.length),
        i < stScenarioA.first_not_fully_paid_advance_index →
          val (stScenarioA.advances.get ⟨i, hi⟩).current_amount = 0 :=
  claim_C2_amended [evA, evP] day10 2 stScenarioA dateOrdered_scenarioA
    (by decide) (run_scenarioA day10 le_rfl)

/-- Claim C6 (counterexample): an advance of -5 creates a negative
`current_amount`; and with amounts at the precision limit the netting
subtraction rounds up: after `cx6evs` the advance issued with
`initial_amount = 10^29 - 1` carries `current_amount = 10^29`, strictly
above its initial amount. -/
theorem claim_C6_counterexample :
    (DateOrdered [evNeg5] ∧ process_events day10 initStats [evNeg5] = .ok stNeg5 ∧
      advNeg5 ∈ stNeg5.advances ∧ val advNeg5.current_amount < 0) ∧
    (DateOrdered cx6evs ∧ process_events day10 initStats cx6evs = .ok stC6 ∧
      advBig ∈ stC6.advances ∧
      (advBig.initial_amount : ℚ) < val advBig.current_amount) := by
  refine ⟨⟨dateOrdered_neg5, run_neg5, ?_, ?_⟩, dateOrdered_cx6, run_cx6, ?_, ?_⟩
  · simp [stNeg5]
  · rw [show advNeg5.current_amount = (⟨-5, 0⟩ : PyDec) from rfl, val_int_mk]
    norm_num
  · simp [stC6]
  · rw [show advBig.current_amount =
        (⟨1000000000000000000000000000, 2⟩ : PyDec) from rfl,
      show advBig.initial_amount = (99999999999999999999999999999 : ℤ) from rfl,
      show ((2 : ℤ)) = ((2 : ℕ) : ℤ) by norm_num, val_nat_exp]
    norm_num

/-- Claim C6 (amended): for a date-ordered event sequence whose advance
amounts lie in `[0, 10^28)` (within the 28-digit context precision),
after each event every advance satisfies
`0 ≤ current_amount ≤ initial_amount`. -/
theorem claim_C6_amended (evs : List Event) (end_dt : ℤ) (n : ℕ) (s' : AdvanceStats)
    (hord : DateOrdered evs)
    (hamt : ∀ e ∈ evs, e.type = "advance" → 0 ≤ e.amount ∧ e.amount < 10 ^ PREC)
    (hrun : process_events end_dt initStats (evs.take n) = .ok s') :
    ∀ a ∈ s'.advances, 0 ≤ val a.current_amount ∧
      val a.current_amount ≤ (a.initial_amount : ℚ) := by
  have hinv := process_events_rangeInv end_dt (evs.take n) initStats s' hrun
    (fun e he h => hamt e (List.take_subset n evs he) h) initStats_rangeInv
  intro a ha
  obtain ⟨h1, h2, -, -⟩ := hinv.2 a ha
  exact ⟨h1, h2⟩

theorem claim_C6_witness :
    0 ≤ val advA1.current_amount ∧
      val advA1.current_amount ≤ (advA1.initial_amount : ℚ) :=
  claim_C6_amended [evA, evP] day10 2 stScenarioA dateOrdered_scenarioA
    (by decide) (run_scenarioA day10 le_rfl) advA1 (by simp [stScenarioA])

/-- Claim C10 (counterexample): the state reached by `cx10evs` has
positive banked credit (1) while the first advance still carries
`current_amount = 99`: banked credit and a positive per-advance balance
coexist (the aggregate balance is 0, but the per-advance clause fails). -/
theorem claim_C10_counterexample :
    ReachableState stC10 ∧ 0 < val stC10.overall_payments_for_future ∧
      advH1 ∈ stC10.advances ∧ val advH1.current_amount ≠ 0 := by
  refine ⟨⟨cx10evs, day10, dateOrdered_cx10, run_cx10⟩, ?_, ?_, ?_⟩
  · rw [show stC10.overall_payments_for_future =
        (⟨1000000000000000000000000000, -27⟩ : PyDec) from rfl,
      show ((-27 : ℤ)) = -((27 : ℕ) : ℤ) by norm_num, val_neg_exp]
    norm_num
  · simp [stC10]
  · rw [show advH1.current_amount =
        (⟨9900000000000000000000000000, -26⟩ : PyDec) from rfl,
      show ((-26 : ℤ)) = -((26 : ℕ) : ℤ) by norm_num, val_neg_exp]
    norm_num

/-- Claim C10 (amended): in every reachable state the banked credit is
nonnegative, and positive banked credit forces
`overall_advance_balance = 0`.  (The per-advance clause - every
`current_amount = 0` - is dropped: it fails on reachable states.) -/
theorem claim_C10_amended (s : AdvanceStats) (h : ReachableState s) :
    0 ≤ val s.overall_payments_for_future ∧
      (0 < val s.overall_payments_for_future → val s.overall_advance_balance = 0) := by
  obtain ⟨evs, end_dt, -, hrun⟩ := h
  exact process_events_creditInv end_dt evs initStats s hrun initStats_balInv.1

theorem claim_C10_witness :
    0 ≤ val stHuge.overall_payments_for_future ∧
      (0 < val stHuge.overall_payments_for_future →
        val stHuge.overall_advance_balance = 0) :=
  claim_C10_amended stHuge ⟨[evA, evPHuge], day10, dateOrdered_huge, run_huge⟩

/-- Claim C3 (counterexample): two reachable instances refute the claim
as stated.  First, from the fresh engine (credit 0) an advance of -5
satisfies "credit strictly exceeds initial_amount" yet is created with
`current_amount = -5`, not 0 (the netting branch requires credit > 0).
Second, after banking a credit of `1.000000000000000000000000000E+35`,
issuing an advance of 1 leaves the credit bit-for-bit unchanged - the
28-digit context rounds the subtraction straight back - so the credit
does not decrease by exactly the initial amount. -/
theorem claim_C3_counterexample :
    (ReachableState initStats ∧
      ((-5 : ℤ) : ℚ) < val initStats.overall_payments_for_future ∧
      (process_advance initStats (mkAdvanceRecord evNeg5 day0)).advances =
        [{ mkAdvanceRecord evNeg5 day0 with current_amount := ⟨-5, 0⟩ }] ∧
      val ((⟨-5, 0⟩ : PyDec)) ≠ 0) ∧
    (ReachableState stHuge ∧
      ((1 : ℤ) : ℚ) < val stHuge.overall_payments_for_future ∧
      (process_advance stHuge (mkAdvanceRecord evOne day10)).overall_payments_for_future =
        stHuge.overall_payments_for_future ∧
      val stHuge.overall_payments_for_future - 1 ≠
        val stHuge.overall_payments_for_future) := by
  refine ⟨⟨⟨[], 0, List.chain'_nil, rfl⟩, ?_, ?_, ?_⟩,
    ⟨[evA, evPHuge], day10, dateOrdered_huge, run_huge⟩, ?_, ?_, ?_⟩
  · rw [show initStats.overall_payments_for_future = (⟨0, 0⟩ : PyDec) from rfl,
      val_zero_mk]
    norm_num
  · rfl
  · rw [val_int_mk]
    norm_num
  · rw [show stHuge.overall_payments_for_future =
        (⟨1000000000000000000000000000, 8⟩ : PyDec) from rfl,
      show ((8 : ℤ)) = ((8 : ℕ) : ℤ) by norm_num, val_nat_exp]
    norm_num
  · rfl
  · rw [show stHuge.overall_payments_for_future =
        (⟨1000000000000000000000000000, 8⟩ : PyDec) from rfl,
      show ((8 : ℤ)) = ((8 : ℕ) : ℤ) by norm_num, val_nat_exp]
    norm_num

/-- Claim C3 (amended): in a reachable state with strictly positive
credit strictly exceeding the new advance's initial amount, issuing the
advance creates it with `current_amount = 0`, leaves the value of
`overall_advance_balance` unchanged (it is 0 and is reassigned 0), and
sets the credit to the 28-digit context rounding of
`credit - initial_amount` - which is an exact decrease by
`initial_amount` whenever that difference fits in the context
precision. -/
theorem claim_C3_amended (s : AdvanceStats) (adv : Advance)
    (hreach : ReachableState s)
    (hpos : 0 < val s.overall_payments_for_future)
    (hgt : (adv.initial_amount : ℚ) < val s.overall_payments_for_future) :
    (process_advance s adv).advances =
      s.advances ++ [{ adv with current_amount := ⟨0, 0⟩ }] ∧
    val (process_advance s adv).overall_advance_balance =
      val s.overall_advance_balance ∧
    (process_advance s adv).overall_payments_for_future =
      decSub s.overall_payments_for_future (decOfInt adv.initial_amount) ∧
    (decSubFits s.overall_payments_for_future (decOfInt adv.initial_amount) →
      val (process_advance s adv).overall_payments_for_future =
        val s.overall_payments_for_future - adv.initial_amount) := by
  have hcred : CreditInv s := by
    obtain ⟨evs, end_dt, -, hrun⟩ := hreach
    exact process_events_creditInv end_dt evs initStats s hrun initStats_balInv.1
  have h1 : decPos s.overall_payments_for_future := (decPos_iff_val _).2 hpos
  have h2 : decPos (decSub s.overall_payments_for_future (decOfInt adv.initial_amount)) := by
    rw [decPos_iff_val, val_decSub_pos_iff, val_decOfInt]
    exact hgt
  unfold process_advance
  rw [if_pos h1, if_pos h2]
  refine ⟨rfl, ?_, rfl, ?_⟩
  · show val (⟨0, 0⟩ : PyDec) = val s.overall_advance_balance
    rw [val_zero_mk]
    exact (hcred.2 hpos).symm
  · intro hfit
    show val (decSub s.overall_payments_for_future (decOfInt adv.initial_amount)) = _
    rw [val_decSub_of_fits _ _ hfit, val_decOfInt]

theorem claim_C3_witness :
    (process_advance stP1007 (mkAdvanceRecord evOne day10)).advances =
      stP1007.advances ++ [{ mkAdvanceRecord evOne day10 with current_amount := ⟨0, 0⟩ }] ∧
    val (process_advance stP1007 (mkAdvanceRecord evOne day10)).overall_advance_balance =
      val stP1007.overall_advance_balance ∧
    (process_advance stP1007 (mkAdvanceRecord evOne day10)).overall_payments_for_future =
      decSub stP1007.overall_payments_for_future (decOfInt 1) ∧
    (decSubFits stP1007.overall_payments_for_future (decOfInt 1) →
      val (process_advance stP1007 (mkAdvanceRecord evOne day10)).overall_payments_for_future =
        val stP1007.overall_payments_for_future - 1) := by
  have h := claim_C3_amended stP1007 (mkAdvanceRecord evOne day10)
    ⟨[evA, evP1007], day10, (by
      unfold DateOrdered
      refine List.chain'_cons.mpr ⟨?_, List.chain'_singleton _⟩
      exact dateOrdered_pair evA evP1007 day0 day10 strptime_day0 strptime_day10
        (by unfold day0 day10; omega)), (by
      have h1 : process_event initStats evA day10 = .ok stA := by
        rw [process_event_parse_ok initStats evA day10 day0 strptime_day0,
          if_neg (by unfold day0 day10; omega)]
        rfl
      have h2 : process_event stA evP1007 day10 = .ok stP1007 := by
        rw [process_event_parse_ok stA evP1007 day10 day10 strptime_day10,
          if_neg (by omega)]
        rfl
      rw [process_events_cons_ok day10 initStats evA [evP1007] stA h1,
        process_events_cons_ok day10 stA evP1007 [] stP1007 h2]
      rfl)⟩
    (by
      rw [show stP1007.overall_payments_for_future =
          (⟨3500000000000000035561831, -24⟩ : PyDec) from rfl,
        show ((-24 : ℤ)) = -((24 : ℕ) : ℤ) by norm_num, val_neg_exp]
      norm_num)
    (by
      rw [show (mkAdvanceRecord evOne day10).initial_amount = (1 : ℤ) from rfl,
        show stP1007.overall_payments_for_future =
          (⟨3500000000000000035561831, -24⟩ : PyDec) from rfl,
        show ((-24 : ℤ)) = -((24 : ℕ) : ℤ) by norm_num, val_neg_exp]
      norm_num)
  exact h

/-- Claim C5: the reduction sweep settles strictly in issuance order -
whenever a call to `reduce_advances` decreases the `current_amount` of
the advance at position `j`, every earlier advance ends the call with
`current_amount = 0` (positions before the cursor were already zero, the
walk zeroes each advance it passes, and a partial reduction stops the
walk). -/
theorem claim_C5_fifo (s : AdvanceStats) (amount : PyDec) (event_dt : ℤ) (i j : ℕ)
    (hpz : ∀ a ∈ s.advances.take s.first_not_fully_paid_advance_index,
      val a.current_amount = 0)
    (hij : i < j) (hj : j < s.advances.length)
    (hi' : i < (reduce_advances s amount event_dt).advances.length)
    (hj' : j < (reduce_advances s amount event_dt).advances.length)
    (hdec : val ((reduce_advances s amount event_dt).advances.get ⟨j, hj'⟩).current_amount
      < val (s.advances.get ⟨j, hj⟩).current_amount) :
    val ((reduce_advances s amount event_dt).advances.get ⟨i, hi'⟩).current_amount = 0 := by
  simp only [List.get_eq_getElem] at hdec ⊢
  have hAdv : (reduce_advances s amount event_dt).advances =
      s.advances.take s.first_not_fully_paid_advance_index ++
        (reduceLoop amount event_dt
          (s.advances.drop s.first_not_fully_paid_advance_index)).1 := rfl
  have hTlen : (s.advances.take s.first_not_fully_paid_advance_index).length =
      min s.first_not_fully_paid_advance_index s.advances.length := List.length_take _ _
  have hLlen : (reduceLoop amount event_dt
      (s.advances.drop s.first_not_fully_paid_advance_index)).1.length =
      s.advances.length - s.first_not_fully_paid_advance_index := by
    rw [reduceLoop_length, List.length_drop]
  simp only [hAdv] at hdec hi' hj' ⊢
  by_cases hjT : j < (s.advances.take s.first_not_fully_paid_advance_index).length
  · exfalso
    rw [List.getElem_append_left hjT] at hdec
    rw [List.getElem_take] at hdec
    exact lt_irrefl _ hdec
  · push_neg at hjT
    have hclen : s.first_not_fully_paid_advance_index < s.advances.length := by omega
    have hTc : (s.advances.take s.first_not_fully_paid_advance_index).length =
        s.first_not_fully_paid_advance_index := by omega
    rw [List.getElem_append_right hjT] at hdec
    have hjL : j - s.first_not_fully_paid_advance_index <
        (reduceLoop amount event_dt
          (s.advances.drop s.first_not_fully_paid_advance_index)).1.length := by omega
    have hjD : j - s.first_not_fully_paid_advance_index <
        (s.advances.drop s.first_not_fully_paid_advance_index).length := by
      rw [List.length_drop]
      omega
    have hdec2 : val ((reduceLoop amount event_dt
        (s.advances.drop s.first_not_fully_paid_advance_index)).1[
          j - s.first_not_fully_paid_advance_index]).current_amount <
        val ((s.advances.drop s.first_not_fully_paid_advance_index)[
          j - s.first_not_fully_paid_advance_index]).current_amount := by
      rw [List.getElem_drop]
      simp only [show s.first_not_fully_paid_advance_index +
          (j - s.first_not_fully_paid_advance_index) = j from by omega]
      simp only [hTc] at hdec
      exact hdec
    by_cases hiT : i < (s.advances.take s.first_not_fully_paid_advance_index).length
    · rw [List.getElem_append_left hiT]
      apply hpz
      exact List.getElem_mem hiT
    · push_neg at hiT
      rw [List.getElem_append_right hiT]
      rw [hTc] at hiT
      simp only [hTc]
      exact reduceLoop_fifo amount event_dt
        (s.advances.drop s.first_not_fully_paid_advance_index)
        (j - s.first_not_fully_paid_advance_index) hjD hjL hdec2
        (i - s.first_not_fully_paid_advance_index) (by omega) (by omega)

theorem claim_C5_witness :
    val ((reduce_advances stW5 (decOfInt 120) day10).advances.get
      ⟨0, by decide⟩).current_amount = 0 :=
  claim_C5_fifo stW5 (decOfInt 120) day10 0 1
    (by
      intro a ha
      rw [show stW5.first_not_fully_paid_advance_index = 0 from rfl,
        List.take_zero] at ha
      exact absurd ha (List.not_mem_nil a))
    (by omega) (by decide) (by decide) (by decide)
    (by
      show val (⟨30, 0⟩ : PyDec) < val (⟨50, 0⟩ : PyDec)
      rw [val_int_mk, val_int_mk]
      norm_num)
